import Mathlib

/-!
Shallow embedding of the Banner_gen template binding / batch rendering engine
(`src/unnamed/part_002`, `src/unnamed/part_001`) and proofs about the
specification claims.

Modelling conventions:
* JS strings are Lean `String`s; `Record<string,string>` objects are
  association lists (`List (String × String)`), looked up by first key.
* A JS truthiness test on a looked-up map entry (`m[k] || ...`) treats both a
  missing key and the empty string as falsy.
* JSON record values (`string | number | string[]`) are the `JsValue` type;
  numbers are modelled as naturals (their `String(...)` rendering is the
  decimal numeral, which is all the code uses them for).
* DOM fragments are modelled structurally: the price element is a flat list
  of child nodes, the two image-group containers are lists of `<img>`
  elements, every other `[data-field]` element is a `Slot`.
-/

namespace BannerGen

/-! ### JS string helpers

The JS operations are implemented over the character list of the string
(structural recursion keeps every definition evaluable by the kernel);
they agree with the primitive `String` operations of the same names. -/

/-- `s.startsWith(pre)`. -/
def strStartsWith (s pre : String) : Bool :=
  pre.data.isPrefixOf s.data

/-- Drop the first `n` characters of a string (`s.substring(n)`). -/
def strDrop (s : String) (n : Nat) : String :=
  String.mk (s.data.drop n)

/-- `s.trim()` (drop leading and trailing whitespace). -/
def strTrim (s : String) : String :=
  String.mk (((s.data.dropWhile Char.isWhitespace).reverse.dropWhile
    Char.isWhitespace).reverse)

/-- Split a character list at a separator character (`s.split(sep)`:
never an empty list, keeps empty segments). -/
def splitOnChar (sep : Char) : List Char → List (List Char)
  | [] => [[]]
  | a :: t =>
    if a = sep then [] :: splitOnChar sep t
    else
      match splitOnChar sep t with
      | h :: r => (a :: h) :: r
      | [] => [[a]]

/-- Parse a digit string (`Number(s)` on the well-formed numerals the code
feeds it; anything else yields `none`). -/
def strToNatOpt (s : String) : Option Nat :=
  if s.data ≠ [] && s.data.all Char.isDigit then
    some (s.data.foldl (fun acc c => acc * 10 + (c.toNat - 48)) 0)
  else none

/-- `s.replace(/^\.\//, "")`: strip a single leading `./`. -/
def stripDotSlash (s : String) : String :=
  if strStartsWith s "./" then strDrop s 2 else s

/-- `s.replace(/^\.\.\//, "")`: strip a single leading `../`. -/
def stripDotDotSlash (s : String) : String :=
  if strStartsWith s "../" then strDrop s 3 else s

/-- `src.replace(/^\.\//, "").replace(/^\.\.\//, "")` as used by the
resource resolvers: first strip one leading `./`, then one leading `../`. -/
def normalizePath (s : String) : String :=
  stripDotDotSlash (stripDotSlash s)

/-- `s.split("/").pop()`: the final path segment (empty string for a path
ending in `/`; `split` never yields an empty array in JS). -/
def lastSegment (s : String) : String :=
  String.mk (((splitOnChar '/' s.data).reverse).headD [])

/-- Lookup of `m[k]` under JS truthiness: a present-but-empty value is
treated like a miss, exactly as the `||` fallback chains in the source do. -/
def jsGetTruthy (m : List (String × String)) (k : String) : Option String :=
  match m.lookup k with
  | some v => if v = "" then none else some v
  | none => none

/-- `src.startsWith("data:") || src.startsWith("http://") ||
src.startsWith("https://")`: the passthrough test for references that are
already inline payloads or absolute network URLs. -/
def isInlineOrAbsolute (s : String) : Bool :=
  strStartsWith s "data:" || strStartsWith s "http://" || strStartsWith s "https://"

/-! ### Resource resolver (`replaceHtmlImgSrcWithBase64` callback,
`src/unnamed/part_001` lines 206-240 / `part_002` lines 1415-1449) -/

/-- The per-reference body of `replaceHtmlImgSrcWithBase64`: candidate keys
are tried in order (original, normalized, `./`+normalized, bare filename,
and - only when the normalized path starts with `/` - the normalized path
with its leading `/` removed); the first truthy hit wins, a miss returns the
reference unchanged. -/
def resolveImgSrc (imageMap : List (String × String)) (src : String) : String :=
  if isInlineOrAbsolute src then src
  else
    let normalized := normalizePath src
    let fileName := if lastSegment normalized = "" then normalized else lastSegment normalized
    let hit :=
      (jsGetTruthy imageMap src).orElse fun _ =>
      (jsGetTruthy imageMap normalized).orElse fun _ =>
      (jsGetTruthy imageMap ("./" ++ normalized)).orElse fun _ =>
      (jsGetTruthy imageMap fileName).orElse fun _ =>
      (if strStartsWith normalized "/" then jsGetTruthy imageMap (strDrop normalized 1) else none)
    match hit with
    | some dataUrl => dataUrl
    | none => src

/-- The per-reference body of `replaceCssUrlWithBase64`
(`src/unnamed/part_001` lines 243-263): candidates are original, normalized,
`./`+normalized and bare filename (`pop() || ""`, so an empty last segment
falls back to the empty key); no fifth candidate. -/
def resolveCssUrl (resourceMap : List (String × String)) (urlPath : String) : String :=
  if isInlineOrAbsolute urlPath then urlPath
  else
    let normalized := normalizePath urlPath
    let hit :=
      (jsGetTruthy resourceMap urlPath).orElse fun _ =>
      (jsGetTruthy resourceMap normalized).orElse fun _ =>
      (jsGetTruthy resourceMap ("./" ++ normalized)).orElse fun _ =>
      (jsGetTruthy resourceMap (lastSegment normalized))
    match hit with
    | some dataUrl => dataUrl
    | none => urlPath

/-- Spec-side definition (follows the words of the specification, §4.3):
an explicit ordered candidate list, evaluated short-circuit; first hit wins,
no hit leaves the reference unchanged. -/
def firstHit (m : List (String × String)) : List String → Option String
  | [] => none
  | k :: ks =>
    match jsGetTruthy m k with
    | some v => some v
    | none => firstHit m ks

/-- Spec-side candidate list for a stylesheet `url(...)` reference:
exact original, normalized, normalized with `./` re-added, bare filename. -/
def specCssCandidates (ref : String) : List String :=
  [ref, normalizePath ref, "./" ++ normalizePath ref, lastSegment (normalizePath ref)]

/-- The extra candidates the markup resolver actually uses: the bare-filename
slot falls back to the whole normalized path when the last segment is empty,
and a leading-`/`-stripped form is tried last. -/
def htmlCandidates (ref : String) : List String :=
  let normalized := normalizePath ref
  let fileName := if lastSegment normalized = "" then normalized else lastSegment normalized
  [ref, normalized, "./" ++ normalized, fileName] ++
    (if strStartsWith normalized "/" then [strDrop normalized 1] else [])

/-! ### Record values (`BannerData`, `src/types/index.ts`) -/

/-- A JSON record value: `string | number | string[]`. -/
inductive JsValue where
  | vStr (s : String)
  | vNum (n : Nat)
  | vArr (l : List String)
deriving Repr, DecidableEq

/-- `String(value)` on a record value (arrays join with `,`). -/
def JsValue.jsString : JsValue → String
  | .vStr s => s
  | .vNum n => toString n
  | .vArr l => String.intercalate "," l

/-- JS truthiness of a record value (non-empty string, non-zero number;
arrays are always truthy). -/
def JsValue.truthy : JsValue → Bool
  | .vStr s => s ≠ ""
  | .vNum n => n ≠ 0
  | .vArr _ => true

/-- `Number(value)` restricted to the well-formed inputs the code feeds it
(numbers, and digit strings coming from the edit overlay). -/
def JsValue.jsNum : JsValue → Nat
  | .vNum n => n
  | .vStr s => (strToNatOpt s).getD 0
  | .vArr _ => 0

/-- A `BannerData` record: ordered field entries, first entry wins on lookup
(JSON objects have unique keys). -/
abbrev BannerData := List (String × JsValue)

/-- One index's slice of the edit overlay (`editedValues[index]`,
a `Record<string,string>`). -/
abbrev Edits := List (String × String)

/-- `edits[name] !== undefined ? edits[name] : data[name]`: the
override-else-record resolution used throughout `applyJsonDataToIframe`
(an overlay value arrives as a string). -/
def resolveRaw (edits : Edits) (data : BannerData) (name : String) : Option JsValue :=
  match edits.lookup name with
  | some s => some (JsValue.vStr s)
  | none => data.lookup name

/-! ### Composite price slot (`updatePriceFields`,
`src/unnamed/part_002` lines 1939-2059)

The element carrying `data-field-int` is modelled as a flat list of child
nodes (the template's price markup keeps `sign`, integer and decimal parts
as sibling nodes). -/

/-- A child of the price element: a DOM text node, or an element with a
class list and a text content. -/
inductive PriceChild where
  | textNode (value : String)
  | elemNode (classes : List String) (text : String)
deriving Repr, DecidableEq

/-- `classList.contains` on a price child (false for text nodes). -/
def PriceChild.hasClass : PriceChild → String → Bool
  | .textNode _, _ => false
  | .elemNode cs _, c => cs.contains c

/-- An integer sub-element: carries `price-int-2` or `price-int-3`. -/
def PriceChild.isIntSpan (c : PriceChild) : Bool :=
  c.hasClass "price-int-2" || c.hasClass "price-int-3"

/-- A decimal sub-element: carries `price-decimal-2` or `price-decimal-3`. -/
def PriceChild.isDecSpan (c : PriceChild) : Bool :=
  c.hasClass "price-decimal-2" || c.hasClass "price-decimal-3"

/-- The price element (`[data-field-int]`): its own class list plus its
children. -/
structure PriceEl where
  classes : List String
  children : List PriceChild
deriving Repr, DecidableEq

/-- `classList.remove(a, b)`: drop every listed class. -/
def classListRemove (cs : List String) (rm : List String) : List String :=
  cs.filter (fun c => !rm.contains c)

/-- `classList.add(c)`: append the class if absent. -/
def classListAdd (cs : List String) (c : String) : List String :=
  if cs.contains c then cs else cs ++ [c]

/-- Index of the first child matching a predicate. -/
def findIdxP (p : PriceChild → Bool) (l : List PriceChild) : Option Nat :=
  l.findIdx? p

/-- `querySelector('.c')` on the children: index of the first child with
class `c`. -/
def findIdxClass (l : List PriceChild) (c : String) : Option Nat :=
  findIdxP (fun n => n.hasClass c) l

/-- `parent.insertBefore(x, parent.childNodes[j])`: insert at position `j`
(appends when `j` is past the end). -/
def insertAt (l : List PriceChild) (j : Nat) (x : PriceChild) : List PriceChild :=
  l.take j ++ x :: l.drop j

/-- Replace the child at a position (out-of-range is a no-op). -/
def setAt : List PriceChild → Nat → PriceChild → List PriceChild
  | [], _, _ => []
  | _ :: t, 0, x => x :: t
  | a :: t, n + 1, x => a :: setAt t n x

/-- The node-removal predicate of the post-`sign` cleanup loop: text nodes
with non-blank content, and legacy `.decimal` elements that are not one of
the new `price-decimal-*` spans. -/
def PriceChild.cleanupRemovable : PriceChild → Bool
  | .textNode v => strTrim v ≠ ""
  | .elemNode cs _ =>
    cs.contains "decimal" && !cs.contains "price-decimal-2" && !cs.contains "price-decimal-3"

/-- The final surplus cleanup (`querySelectorAll` + keep the first): keep the
first child matching `p`, remove every later match, keep everything else. -/
def dedupKeepFirst (p : PriceChild → Bool) : List PriceChild → List PriceChild
  | [] => []
  | c :: t => if p c then c :: t.filter (fun d => !p d) else c :: dedupKeepFirst p t

/-- Switch an element's class set: remove all of `rm`, then add `add`
(the found-branch of the int/decimal span update). -/
def PriceChild.switchClass : PriceChild → List String → String → PriceChild
  | .textNode v, _, _ => .textNode v
  | .elemNode cs t, rm, add => .elemNode (classListAdd (classListRemove cs rm) add) t

/-- Set an element's text content. -/
def PriceChild.withText : PriceChild → String → PriceChild
  | .textNode _, t => .textNode t
  | .elemNode cs _, t => .elemNode cs t

/-- The insertion position for a freshly created integer span: after the
`sign` node, skipping text nodes and further `sign` elements; at the front
when there is no `sign`; appended when nothing follows the `sign` run. -/
def intInsertPos (children : List PriceChild) : Nat :=
  match findIdxClass children "sign" with
  | none => 0
  | some s =>
    match (children.drop (s + 1)).findIdx?
        (fun c => match c with
          | .textNode _ => false
          | .elemNode cs _ => !cs.contains "sign") with
    | some j => s + 1 + j
    | none => children.length

/-- Step 1 of `updatePriceFields`: find or create the integer span, set its
class to the target and its text to `intValue`. Returns the new child list
together with the integer span's position. -/
def updateIntSpan (children : List PriceChild) (targetIntClass intValue : String) :
    List PriceChild × Nat :=
  match (findIdxClass children "price-int-2").orElse
      (fun _ => findIdxClass children "price-int-3") with
  | some i =>
    (setAt children i
      (((children.getD i (.textNode "")).switchClass
          ["price-int-2", "price-int-3"] targetIntClass).withText intValue), i)
  | none =>
    let pos := intInsertPos children
    (insertAt children pos (.elemNode [targetIntClass] intValue), pos)

/-- Step 2 of `updatePriceFields`: find or create the decimal span (created
right after the integer span), set its class to the target and its text to
the separator-normalized decimal value. -/
def updateDecSpan (children : List PriceChild) (intIdx : Nat)
    (targetDecimalClass finalDecimalValue : String) : List PriceChild :=
  match (findIdxClass children "price-decimal-2").orElse
      (fun _ => findIdxClass children "price-decimal-3") with
  | some i =>
    setAt children i
      (((children.getD i (.textNode "")).switchClass
          ["price-decimal-2", "price-decimal-3"] targetDecimalClass).withText finalDecimalValue)
  | none =>
    insertAt children (intIdx + 1) (.elemNode [targetDecimalClass] finalDecimalValue)

/-- Step 3 of `updatePriceFields`: remove stray text nodes and superseded
legacy `.decimal` elements after the `sign` node. -/
def cleanupAfterSign (children : List PriceChild) : List PriceChild :=
  match findIdxClass children "sign" with
  | none => children
  | some s =>
    children.take (s + 1) ++ (children.drop (s + 1)).filter (fun c => !c.cleanupRemovable)

/-- `updatePriceFields(iframeDoc, intValue, decimalValue)` on the price
element: class selection by integer digit count, find-or-create of the two
sub-elements, separator normalization, cleanup, and surplus deduplication. -/
def updatePriceFields (p : PriceEl) (intValue decimalValue : String) : PriceEl :=
  let is2Digits := intValue.length ≤ 2
  let targetIntClass := if is2Digits then "price-int-2" else "price-int-3"
  let targetDecimalClass := if is2Digits then "price-decimal-2" else "price-decimal-3"
  let targetBaseClass := if is2Digits then "price--2digits" else "price--3digits"
  let newClasses :=
    classListAdd (classListRemove p.classes ["price--2digits", "price--3digits"]) targetBaseClass
  let finalDecimalValue :=
    if strStartsWith decimalValue "." then decimalValue else "." ++ decimalValue
  let step1 := updateIntSpan p.children targetIntClass intValue
  let step2 := updateDecSpan step1.1 step1.2 targetDecimalClass finalDecimalValue
  let step3 := cleanupAfterSign step2
  let step4 := dedupKeepFirst PriceChild.isIntSpan step3
  let step5 := dedupKeepFirst PriceChild.isDecSpan step4
  { classes := newClasses, children := step5 }

/-! ### Repeated image groups (`applyJsonDataToIframe`,
`src/unnamed/part_002` lines 2206-2358) -/

/-- An `<img>` element inside a group container. -/
structure Img where
  src : String
  alt : String
  classes : List String
  dataField : Option String
  dataLabel : Option String
  /-- `style.display` (`""` is the default, `"none"` hides the element). -/
  display : String
deriving Repr, DecidableEq

/-- Turn the resolved raw value into the source list `baseImgs`: an array is
used as is, a truthy scalar becomes a one-element list, a falsy scalar
yields no sources. -/
def toBaseImgs : JsValue → List String
  | .vArr l => l
  | .vStr s => if s = "" then [] else [s]
  | .vNum n => if n = 0 then [] else [toString n]

/-- The qty-driven source list: a single source is replicated `qty` times, a
multi-source list keeps its first `max 1 qty` entries (`slice` caps at the
list length), no sources stay empty. -/
def computeImgs (baseImgs : List String) (qty : Nat) : List String :=
  match baseImgs with
  | [] => []
  | [x] => List.replicate qty x
  | _ => baseImgs.take (max 1 qty)

/-- The main-product qty default: `qty` when provided, else
`baseImgs.length || 1`. -/
def productQty (baseImgs : List String) (qty : Option Nat) : Nat :=
  qty.getD (if baseImgs.length = 0 then 1 else baseImgs.length)

/-- The gift-group qty default: `qty` when provided, else `1`. -/
def giftQty (qty : Option Nat) : Nat :=
  qty.getD 1

/-- The resolved source list for the main-product group (`product_main_src`
with optional `product_main_qty`, override-aware). -/
def productResolvedSrcs (data : BannerData) (edits : Edits) : List String :=
  match resolveRaw edits data "product_main_src" with
  | none => []
  | some raw =>
    let baseImgs := toBaseImgs raw
    let qty := productQty baseImgs ((resolveRaw edits data "product_main_qty").map JsValue.jsNum)
    computeImgs baseImgs qty

/-- The resolved source list for the gift group (`gift_products_src` with
optional `gift_products_qty`, override-aware). -/
def giftResolvedSrcs (data : BannerData) (edits : Edits) : List String :=
  match resolveRaw edits data "gift_products_src" with
  | none => []
  | some raw =>
    let baseImgs := toBaseImgs raw
    let qty := giftQty ((resolveRaw edits data "gift_products_qty").map JsValue.jsNum)
    computeImgs baseImgs qty

/-- The resolved source list for the gift fallback form
(`gift_products_src_1` replicated `gift_products_qty_1` times). -/
def giftSingleResolvedSrcs (data : BannerData) (edits : Edits) : List String :=
  match resolveRaw edits data "gift_products_src_1" with
  | none => []
  | some raw =>
    let qty := giftQty ((resolveRaw edits data "gift_products_qty_1").map JsValue.jsNum)
    List.replicate qty raw.jsString

/-- Grow the template's img list to `n` entries by cloning the last one
(the `while (templateImgs.length < imgs.length)` loop). -/
def growTo (container : List Img) (n : Nat) : List Img :=
  match container.getLast? with
  | none => container
  | some last => container ++ List.replicate (n - container.length) last

/-- A freshly synthesized main-product img (the fallback when the container
held no `<img>` at all). -/
def freshProductImg (src : String) : Img :=
  { src := src, alt := "主产品", classes := [], dataField := some "product_main_src",
    dataLabel := some "主产品图片", display := "" }

/-- Bind the main-product group: reuse/clone existing imgs (srcs given to the
first `imgs.length` of them, which are shown), hide the surplus with
`display:none`, and synthesize fresh imgs only when the container held none. -/
def bindProductImgs (container : List Img) (imgs : List String) : List Img :=
  if container.isEmpty then
    imgs.map freshProductImg
  else
    (growTo container imgs.length).mapIdx fun i img =>
      if i < imgs.length then { img with src := imgs.getD i "", display := "" }
      else { img with display := "none" }

/-- Bind the gift group: the container is cleared (`innerHTML = ""`) and
fresh imgs with class `giftproductsimg-{count}` are created. -/
def bindGiftImgs (imgs : List String) : List Img :=
  imgs.mapIdx fun i src =>
    { src := src, alt := "赠品" ++ toString (i + 1),
      classes := ["giftproductsimg-" ++ toString imgs.length],
      dataField := some ("gift_products_src_" ++ toString (i + 1)),
      dataLabel := some ("赠品图片" ++ toString (i + 1)), display := "" }

/-! ### The render target (`iframeDoc`) and `applyJsonDataToIframe`
(`src/unnamed/part_002` lines 2188-2410) -/

/-- A plain `[data-field]` element outside the special containers.
The code writes `src` on `<img>` elements and `textContent` otherwise;
either way the slot carries one string value. -/
structure Slot where
  name : String
  value : String
deriving Repr, DecidableEq

/-- The render target: the optional price element (`[data-field-int]`), the
optional `.product` and `.giftproducts` containers, and the remaining
`[data-field]` slots. Container imgs are searched after standalone slots in
this model's document order. -/
structure Doc where
  price : Option PriceEl
  product : Option (List Img)
  gift : Option (List Img)
  slots : List Slot
deriving Repr, DecidableEq

/-- Update the first slot with the given name. -/
def setSlotFirst : List Slot → String → String → List Slot
  | [], _, _ => []
  | s :: rest, name, v =>
    if s.name = name then { s with value := v } :: rest
    else s :: setSlotFirst rest name v

/-- Update the first img whose `data-field` attribute matches. -/
def setImgSrcFirst : List Img → String → String → List Img
  | [], _, _ => []
  | img :: rest, name, v =>
    if img.dataField = some name then { img with src := v } :: rest
    else img :: setImgSrcFirst rest name v

/-- `querySelector('[data-field=name]')` followed by the src/text write:
the first matching element gets the value (standalone slots first, then
product imgs, then gift imgs); no match is a silent no-op. -/
def setFieldValue (doc : Doc) (name v : String) : Doc :=
  if doc.slots.any (fun s => s.name = name) then
    { doc with slots := setSlotFirst doc.slots name v }
  else if (doc.product.getD []).any (fun img => img.dataField = some name) then
    { doc with product := doc.product.map (fun c => setImgSrcFirst c name v) }
  else if (doc.gift.getD []).any (fun img => img.dataField = some name) then
    { doc with gift := doc.gift.map (fun c => setImgSrcFirst c name v) }
  else doc

/-- The field names handled by the special-purpose blocks and skipped by the
generic loop. -/
def specialFields : List String :=
  ["sec_price_int", "sec_price_decimal", "product_main_src", "gift_products_src"]

/-- Step 1 of `applyJsonDataToIframe`: the composite price block, run only
when the record carries both price fields (override-else-record values). -/
def applyPriceStep (doc : Doc) (data : BannerData) (edits : Edits) : Doc :=
  match data.lookup "sec_price_int", data.lookup "sec_price_decimal" with
  | some di, some dd =>
    let intValue := (edits.lookup "sec_price_int").getD di.jsString
    let decimalValue := (edits.lookup "sec_price_decimal").getD dd.jsString
    { doc with price := doc.price.map (fun p => updatePriceFields p intValue decimalValue) }
  | _, _ => doc

/-- Step 2: the main-product group block (runs when the record has
`product_main_src` and the `.product` container exists). -/
def applyProductStep (doc : Doc) (data : BannerData) (edits : Edits) : Doc :=
  if (data.lookup "product_main_src").isSome then
    match doc.product with
    | some container =>
      { doc with product := some (bindProductImgs container (productResolvedSrcs data edits)) }
    | none => doc
  else doc

/-- Step 3: the gift group block; the array form `gift_products_src` is
preferred, else the `gift_products_src_1` fallback. -/
def applyGiftStep (doc : Doc) (data : BannerData) (edits : Edits) : Doc :=
  if (data.lookup "gift_products_src").isSome then
    match doc.gift with
    | some _ => { doc with gift := some (bindGiftImgs (giftResolvedSrcs data edits)) }
    | none => doc
  else if (data.lookup "gift_products_src_1").isSome then
    match doc.gift with
    | some _ => { doc with gift := some (bindGiftImgs (giftSingleResolvedSrcs data edits)) }
    | none => doc
  else doc

/-- Step 4: the generic field loop over the record's entries: special and
array-valued fields are skipped, every other field writes
override-else-record into its slot. -/
def applyGenericStep (doc : Doc) (data : BannerData) (edits : Edits) : Doc :=
  data.foldl
    (fun d (entry : String × JsValue) =>
      if specialFields.contains entry.1 then d
      else
        match entry.2 with
        | .vArr _ => d
        | v => setFieldValue d entry.1 ((edits.lookup entry.1).getD v.jsString))
    doc

/-- Step 5: overlay-only fields (edit entries whose name is absent from the
record and not special) are written as well. -/
def applyEditsStep (doc : Doc) (data : BannerData) (edits : Edits) : Doc :=
  edits.foldl
    (fun d (entry : String × String) =>
      if (data.lookup entry.1).isSome then d
      else if specialFields.contains entry.1 then d
      else setFieldValue d entry.1 entry.2)
    doc

/-- `applyJsonDataToIframe(data, index)` with `edits = editedValues[index]`:
price block, product group, gift group, generic field loop, overlay-only
loop, in source order. -/
def applyJsonData (doc : Doc) (data : BannerData) (edits : Edits) : Doc :=
  applyEditsStep
    (applyGenericStep
      (applyGiftStep
        (applyProductStep
          (applyPriceStep doc data edits) data edits) data edits) data edits) data edits

/-! ### Batch generation (`handleGenerateAll`,
`src/unnamed/part_002` lines 2521-2625)

The wall clock is an external input: `clock i` is the formatted
`yyyymmddHHMM` timestamp the loop reads at record `i`'s iteration, and
`captureOk i` tells whether the capture/export of record `i` succeeds
(the body of the inner `try`). -/

/-- The observable outcome of the batch loop. -/
structure BatchOutcome where
  /-- The file name computed for each processed (non-skipped) record. -/
  allNames : List String
  /-- The timestamp value used for each processed record, in order. -/
  stamps : List String
  /-- The names actually added to the zip (successful captures only). -/
  files : List String
  successCount : Nat
  /-- One `console.error` entry per failed record. -/
  failLog : List String
deriving Repr, DecidableEq

/-- `Object.keys(record).length === 0`: the empty placeholder test. -/
def isEmptyRecord (r : BannerData) : Bool :=
  r.isEmpty

/-- The per-record file name: `id_{timestamp}.png` when `row.id` is truthy,
else `banner_{bannerIndex}_{timestamp}.png`. -/
def fileNameFor (r : BannerData) (bannerIndex : Nat) (timestamp : String) : String :=
  match r.lookup "id" with
  | some v =>
    if v.truthy then v.jsString ++ "_" ++ timestamp ++ ".png"
    else "banner_" ++ toString bannerIndex ++ "_" ++ timestamp ++ ".png"
  | none => "banner_" ++ toString bannerIndex ++ "_" ++ timestamp ++ ".png"

/-- The `for` loop of `handleGenerateAll`: `i` is the record index, `bIdx`
the running sequence counter; the record at index 0 is skipped when empty,
and a failed capture is logged and the loop moves on. -/
def batchLoop (clock : Nat → String) (captureOk : Nat → Bool) :
    Nat → Nat → List BannerData → BatchOutcome
  | _, _, [] =>
    { allNames := [], stamps := [], files := [], successCount := 0, failLog := [] }
  | i, bIdx, r :: rest =>
    if i = 0 && isEmptyRecord r then
      batchLoop clock captureOk (i + 1) bIdx rest
    else
      let ts := clock i
      let name := fileNameFor r (bIdx + 1) ts
      let tail := batchLoop clock captureOk (i + 1) (bIdx + 1) rest
      { allNames := name :: tail.allNames,
        stamps := ts :: tail.stamps,
        files := if captureOk i then name :: tail.files else tail.files,
        successCount := (if captureOk i then 1 else 0) + tail.successCount,
        failLog :=
          if captureOk i then tail.failLog
          else ("导出第 " ++ toString (i + 1) ++ " 条失败") :: tail.failLog }

/-- The final result of `handleGenerateAll`: the archive is produced only
when at least one record yielded a raster, otherwise the batch is reported
as a total failure. -/
structure BatchResult where
  outcome : BatchOutcome
  archive : Option (List String)
  errorMsg : String
deriving Repr, DecidableEq

/-- `handleGenerateAll` (the no-data early return, the loop, and the
`successCount` check). -/
def handleGenerateAll (records : List BannerData) (clock : Nat → String)
    (captureOk : Nat → Bool) : BatchResult :=
  if records.isEmpty then
    { outcome := { allNames := [], stamps := [], files := [], successCount := 0, failLog := [] },
      archive := none, errorMsg := "请先上传 JSON 数据" }
  else
    let o := batchLoop clock captureOk 0 0 records
    if o.successCount > 0 then
      { outcome := o, archive := some o.files, errorMsg := "" }
    else
      { outcome := o, archive := none, errorMsg := "没有成功生成任何 Banner" }

/-! ### ZIP upload: the data-file step (`handleZipUpload`,
`src/unnamed/part_002` lines 1707-1776)

The archive parsing, base64 encoding and markup/stylesheet inlining happen
before this step; the step receives the finished `finalHtml`, the discovered
fields, the image map, and the (attempted) parse of the embedded JSON file
(`none` models a `JSON.parse` failure). -/

/-- The top-level shape of the parsed JSON file: an array of records or a
single record (which is wrapped into a one-element batch). -/
inductive JsonTop where
  | arrTop (l : List BannerData)
  | objTop (r : BannerData)
deriving Repr

/-- The records of a parsed JSON file
(`Array.isArray(parsedJson) ? parsedJson : [parsedJson]`). -/
def JsonTop.records : JsonTop → List BannerData
  | .arrTop l => l
  | .objTop r => [r]

/-- Promote one path-like string inside a record to its inline payload:
candidates are the original, the `./`-stripped form, that form with `./`
re-added, and the bare filename (`part_002` lines 1734-1746). -/
def promoteRef (imageMap : List (String × String)) (path : String) : Option String :=
  let normalized := stripDotSlash path
  (jsGetTruthy imageMap path).orElse fun _ =>
  (jsGetTruthy imageMap normalized).orElse fun _ =>
  (jsGetTruthy imageMap ("./" ++ normalized)).orElse fun _ =>
  (jsGetTruthy imageMap (lastSegment normalized))

/-- Promote every string/array field of a record to inline payloads, keeping
unresolved paths unchanged (numbers untouched). -/
def processRecordAssets (imageMap : List (String × String)) (r : BannerData) : BannerData :=
  r.map fun entry =>
    (entry.1,
      match entry.2 with
      | .vArr l =>
        .vArr (l.map fun path =>
          if path = "" then path else (promoteRef imageMap path).getD path)
      | .vStr s =>
        if s = "" then .vStr s
        else
          match promoteRef imageMap s with
          | some b => .vStr b
          | none => .vStr s
      | .vNum n => .vNum n)

/-- The page state touched by the upload handler. -/
structure UploadState where
  jsonData : List BannerData
  currentIndex : Nat
  htmlContent : String
  templateFields : List (String × Option String)
  errorMsg : String
  warnLog : List String
deriving Repr

/-- The tail of `handleZipUpload`: load the JSON data file when present
(prepending the empty placeholder record and resetting the cursor), treat a
parse failure as a logged warning only, then publish the template
(markup, discovered fields) regardless. -/
def handleZipJsonStep (st : UploadState) (finalHtml : String)
    (fields : List (String × Option String)) (imageMap : List (String × String))
    (jsonPresent : Bool) (parsed : Option JsonTop) : UploadState :=
  let st1 :=
    if jsonPresent then
      match parsed with
      | some top =>
        let processedData := top.records.map (processRecordAssets imageMap)
        { st with jsonData := ([] : BannerData) :: processedData, currentIndex := 0 }
      | none =>
        { st with warnLog := st.warnLog ++ ["解析 ZIP 中的 JSON 文件失败"] }
    else st
  { st1 with templateFields := fields, htmlContent := finalHtml }

/-! ## Claim C6: resource reference resolution -/

/-- Option scrutinee versus `getD`. -/
theorem match_option_getD (o : Option String) (r : String) :
    (match o with | some d => d | none => r) = o.getD r := by
  cases o <;> rfl

/-- `firstHit` evaluates its candidate list short-circuit. -/
theorem firstHit_cons (m : List (String × String)) (k : String) (ks : List String) :
    firstHit m (k :: ks) = (jsGetTruthy m k).orElse (fun _ => firstHit m ks) := by
  cases h : jsGetTruthy m k <;> simp [firstHit, h, Option.orElse]

/-- C6 (counterexample): with a bundle keyed only by `"abs/x.png"`, the
markup reference `"/abs/x.png"` misses all four candidate keys the claim
lists (exact, normalized, `./`+normalized, bare filename), so the claim
requires passthrough; the markup resolver nevertheless resolves it through
its fifth candidate (leading `/` stripped), while the stylesheet resolver
leaves it unchanged — so the two resolvers are not identical either. -/
theorem C6_counterexample :
    resolveImgSrc [("abs/x.png", "data:image/png;base64,AAA")] "/abs/x.png"
      = "data:image/png;base64,AAA" ∧
    resolveCssUrl [("abs/x.png", "data:image/png;base64,AAA")] "/abs/x.png"
      = "/abs/x.png" ∧
    firstHit [("abs/x.png", "data:image/png;base64,AAA")] (specCssCandidates "/abs/x.png")
      = none ∧
    resolveImgSrc [("abs/x.png", "data:image/png;base64,AAA")] "/abs/x.png"
      ≠ resolveCssUrl [("abs/x.png", "data:image/png;base64,AAA")] "/abs/x.png" := by
  refine ⟨by decide, by decide, by decide, by decide⟩

/-- C6 (amended): inline/absolute references pass through both resolvers
unchanged; otherwise each resolver is exactly the first-hit-wins scan of its
ordered candidate list, with a miss leaving the reference unchanged — the
stylesheet resolver uses the four candidates of the claim, the markup
resolver additionally falls back to the whole normalized path when the bare
filename is empty and tries the leading-`/`-stripped normalized path as a
fifth candidate; whenever the normalized path does not start with `/` and
its bare filename is non-empty the two resolvers agree. -/
theorem C6_amended (m : List (String × String)) (ref : String) :
    (isInlineOrAbsolute ref = true →
      resolveImgSrc m ref = ref ∧ resolveCssUrl m ref = ref) ∧
    (isInlineOrAbsolute ref = false →
      resolveImgSrc m ref = (firstHit m (htmlCandidates ref)).getD ref ∧
      resolveCssUrl m ref = (firstHit m (specCssCandidates ref)).getD ref) ∧
    (isInlineOrAbsolute ref = false →
      strStartsWith (normalizePath ref) "/" = false →
      lastSegment (normalizePath ref) ≠ "" →
      resolveImgSrc m ref = resolveCssUrl m ref) := by
  refine ⟨fun h => ?_, fun h => ?_, fun h hslash hseg => ?_⟩
  · constructor <;> simp [resolveImgSrc, resolveCssUrl, h]
  · constructor
    · by_cases hs : strStartsWith (normalizePath ref) "/" <;>
        by_cases hf : lastSegment (normalizePath ref) = "" <;>
          simp [resolveImgSrc, htmlCandidates, h, hs, hf, firstHit_cons, firstHit,
            match_option_getD, Option.getD] <;>
          cases jsGetTruthy m ref <;>
          cases jsGetTruthy m (normalizePath ref) <;>
          cases jsGetTruthy m ("./" ++ normalizePath ref) <;>
          cases jsGetTruthy m (lastSegment (normalizePath ref)) <;>
          simp [Option.orElse]
    · simp only [resolveCssUrl, h, Bool.false_eq_true, if_false, specCssCandidates,
        firstHit_cons, firstHit, match_option_getD]
      cases jsGetTruthy m ref <;>
      cases jsGetTruthy m (normalizePath ref) <;>
      cases jsGetTruthy m ("./" ++ normalizePath ref) <;>
      cases jsGetTruthy m (lastSegment (normalizePath ref)) <;>
        simp [Option.orElse]
  · simp [resolveImgSrc, resolveCssUrl, h, hslash, hseg]

/-- C6 (witness): the amended theorem instantiated at a `data:` reference
(passthrough), a relative reference resolved by both scans, and the
agreement case. -/
theorem C6_witness :
    (resolveImgSrc [("img/x.png", "data:one")] "data:z" = "data:z" ∧
      resolveCssUrl [("img/x.png", "data:one")] "data:z" = "data:z") ∧
    (resolveImgSrc [("img/x.png", "data:one")] "./img/x.png"
        = (firstHit [("img/x.png", "data:one")] (htmlCandidates "./img/x.png")).getD
            "./img/x.png" ∧
      resolveCssUrl [("img/x.png", "data:one")] "./img/x.png"
        = (firstHit [("img/x.png", "data:one")] (specCssCandidates "./img/x.png")).getD
            "./img/x.png") ∧
    resolveImgSrc [("img/x.png", "data:one")] "./img/x.png"
      = resolveCssUrl [("img/x.png", "data:one")] "./img/x.png" :=
  ⟨(C6_amended [("img/x.png", "data:one")] "data:z").1 (by decide),
    (C6_amended [("img/x.png", "data:one")] "./img/x.png").2.1 (by decide),
    (C6_amended [("img/x.png", "data:one")] "./img/x.png").2.2 (by decide) (by decide)
      (by decide)⟩

/-! ## Claim C9: archive upload prepends an empty placeholder record -/

/-- C9 (confirmed): when the uploaded archive contains a parseable
structured-data file with `N` records, the loaded batch has `N + 1` entries,
the entry at index 0 is the empty placeholder record, and the cursor is
reset to index 0. -/
theorem C9_loaded_batch (st : UploadState) (finalHtml : String)
    (fields : List (String × Option String)) (imageMap : List (String × String))
    (top : JsonTop) :
    (handleZipJsonStep st finalHtml fields imageMap true (some top)).jsonData.length
        = top.records.length + 1 ∧
    (handleZipJsonStep st finalHtml fields imageMap true
        (some top)).jsonData.head? = some ([] : BannerData) ∧
    (handleZipJsonStep st finalHtml fields imageMap true (some top)).currentIndex = 0 := by
  refine ⟨?_, ?_, ?_⟩ <;> simp [handleZipJsonStep]

/-! ## Claim C10: a data-file parse failure never aborts template loading -/

/-- C10 (confirmed): when the embedded structured-data file fails to parse,
the failure only appends a warning to the log; the template markup and the
discovered fields are still published, the previously loaded batch, cursor
and error message are untouched. -/
theorem C10_parse_failure_tolerated (st : UploadState) (finalHtml : String)
    (fields : List (String × Option String)) (imageMap : List (String × String)) :
    (handleZipJsonStep st finalHtml fields imageMap true none).htmlContent = finalHtml ∧
    (handleZipJsonStep st finalHtml fields imageMap true none).templateFields = fields ∧
    (handleZipJsonStep st finalHtml fields imageMap true none).jsonData = st.jsonData ∧
    (handleZipJsonStep st finalHtml fields imageMap true none).currentIndex
        = st.currentIndex ∧
    (handleZipJsonStep st finalHtml fields imageMap true none).errorMsg = st.errorMsg ∧
    (handleZipJsonStep st finalHtml fields imageMap true none).warnLog
        = st.warnLog ++ ["解析 ZIP 中的 JSON 文件失败"] := by
  refine ⟨?_, ?_, ?_, ?_, ?_, ?_⟩ <;> rfl

/-! ## Claims C4 and C5: the batch loop -/

/-- Mapping over an `enumFrom` is mapping over `enum` with shifted indices. -/
theorem enumFrom_map_shift {α β : Type} (l : List α) :
    ∀ (n : Nat) (f : Nat × α → β),
      (l.enumFrom n).map f = l.enum.map (fun p => f (p.1 + n, p.2)) := by
  induction l with
  | nil => intro n f; rfl
  | cons a t ih =>
    intro n f
    have h1 : (a :: t).enumFrom n = (n, a) :: t.enumFrom (n + 1) := rfl
    rw [h1, List.enum_cons, List.map_cons, List.map_cons, ih (n + 1) f,
      ih 1 (fun p => f (p.1 + n, p.2))]
    congr 1
    · simp
    apply List.map_congr_left
    intro k _
    show f (k.1 + (n + 1), k.2) = f (k.1 + 1 + n, k.2)
    rw [show k.1 + (n + 1) = k.1 + 1 + n by omega]

/-- The batch loop from a non-zero start index processes every record:
file names and timestamps follow the position. -/
theorem batchLoop_pos (clock : Nat → String) (captureOk : Nat → Bool) :
    ∀ (l : List BannerData) (i b : Nat), i ≠ 0 →
      (batchLoop clock captureOk i b l).allNames
          = l.enum.map (fun p => fileNameFor p.2 (b + p.1 + 1) (clock (i + p.1))) ∧
      (batchLoop clock captureOk i b l).stamps
          = l.enum.map (fun p => clock (i + p.1)) := by
  intro l
  induction l with
  | nil => intro i b _; exact ⟨rfl, rfl⟩
  | cons r rest ih =>
    intro i b hi
    have hskip : (i = 0 && isEmptyRecord r) = false := by
      simp [hi]
    have h1 := ih (i + 1) (b + 1) (Nat.succ_ne_zero i)
    constructor
    · simp only [batchLoop, hskip, Bool.false_eq_true, if_false, h1.1, List.enum_cons,
        List.map_cons, enumFrom_map_shift]
      refine congrArg₂ List.cons (by simp) ?_
      apply List.map_congr_left
      intro k _
      have e1 : b + 1 + k.1 + 1 = b + (k.1 + 1) + 1 := by omega
      have e2 : i + 1 + k.1 = i + (k.1 + 1) := by omega
      rw [e1, e2]
    · simp only [batchLoop, hskip, Bool.false_eq_true, if_false, h1.2, List.enum_cons,
        List.map_cons, enumFrom_map_shift]
      refine congrArg₂ List.cons (by simp) ?_
      apply List.map_congr_left
      intro k _
      have e2 : i + 1 + k.1 = i + (k.1 + 1) := by omega
      rw [e2]

/-- C4 (counterexample): the timestamp is read from the clock inside the
per-record loop, not once per batch run; with a clock whose formatted value
changes between the two records, the two produced file names carry two
different timestamps, contradicting the claim that all filenames of one run
share a single timestamp. -/
theorem C4_counterexample :
    (handleGenerateAll [[("t", JsValue.vStr "x")], [("u", JsValue.vStr "y")]]
        (fun i => if i = 0 then "A" else "B") (fun _ => true)).outcome.stamps
      = ["A", "B"] ∧
    (handleGenerateAll [[("t", JsValue.vStr "x")], [("u", JsValue.vStr "y")]]
        (fun i => if i = 0 then "A" else "B") (fun _ => true)).outcome.allNames
      = ["banner_1_A.png", "banner_2_B.png"] ∧
    ("A" : String) ≠ "B" := by
  refine ⟨by decide, by decide, by decide⟩

/-- C4 (amended): each record with a truthy `id` is named
`{id}_{timestamp}.png` and every other processed record
`banner_{seq}_{timestamp}.png`, where `seq` counts the processed
(non-placeholder) records starting at 1 — an empty placeholder record at
index 0 is skipped and does not shift the numbering; the timestamp, however,
is re-read from the minute clock at every record's own iteration, so the
filenames of one run share it only as long as the clock's formatted value
does not change during the run. -/
theorem C4_amended (r0 : BannerData) (rest : List BannerData) (clock : Nat → String)
    (captureOk : Nat → Bool) :
    (∀ (r : BannerData) (b : Nat) (ts id : String), r.lookup "id" = some (JsValue.vStr id) →
      id ≠ "" → fileNameFor r b ts = id ++ "_" ++ ts ++ ".png") ∧
    (∀ (r : BannerData) (b : Nat) (ts : String), r.lookup "id" = none →
      fileNameFor r b ts = "banner_" ++ toString b ++ "_" ++ ts ++ ".png") ∧
    (isEmptyRecord r0 = true →
      (handleGenerateAll (r0 :: rest) clock captureOk).outcome.allNames
          = rest.enum.map (fun p => fileNameFor p.2 (p.1 + 1) (clock (p.1 + 1))) ∧
      (handleGenerateAll (r0 :: rest) clock captureOk).outcome.stamps
          = rest.enum.map (fun p => clock (p.1 + 1))) ∧
    (isEmptyRecord r0 = false →
      (handleGenerateAll (r0 :: rest) clock captureOk).outcome.allNames
          = fileNameFor r0 1 (clock 0)
              :: rest.enum.map (fun p => fileNameFor p.2 (p.1 + 2) (clock (p.1 + 1))) ∧
      (handleGenerateAll (r0 :: rest) clock captureOk).outcome.stamps
          = clock 0 :: rest.enum.map (fun p => clock (p.1 + 1))) := by
  have houtcome : (handleGenerateAll (r0 :: rest) clock captureOk).outcome
      = batchLoop clock captureOk 0 0 (r0 :: rest) := by
    simp only [handleGenerateAll, List.isEmpty_cons, Bool.false_eq_true, if_false]
    split <;> rfl
  refine ⟨?_, ?_, fun hempty => ?_, fun hne => ?_⟩
  · intro r b ts id hid hne
    simp [fileNameFor, hid, JsValue.truthy, hne, JsValue.jsString]
  · intro r b ts hid
    simp [fileNameFor, hid]
  · have h := batchLoop_pos clock captureOk rest 1 0 one_ne_zero
    have : batchLoop clock captureOk 0 0 (r0 :: rest)
        = batchLoop clock captureOk 1 0 rest := by
      simp [batchLoop, hempty]
    rw [houtcome, this, h.1, h.2]
    constructor
    · apply List.map_congr_left
      intro k _
      have e0 : 0 + k.1 + 1 = k.1 + 1 := by omega
      have e1 : 1 + k.1 = k.1 + 1 := by omega
      rw [e0, e1]
    · apply List.map_congr_left
      intro k _
      have e1 : 1 + k.1 = k.1 + 1 := by omega
      rw [e1]
  · have h := batchLoop_pos clock captureOk rest 1 1 one_ne_zero
    have hskip : ((0 : Nat) = 0 && isEmptyRecord r0) = false := by simp [hne]
    rw [houtcome]
    constructor
    · simp only [batchLoop, hne, Bool.and_false, Bool.false_eq_true, if_false, h.1]
      refine congrArg₂ List.cons (by simp) ?_
      apply List.map_congr_left
      intro k _
      have e1 : 1 + k.1 + 1 = k.1 + 2 := by omega
      have e2 : 1 + k.1 = k.1 + 1 := by omega
      rw [e1, e2]
    · simp only [batchLoop, hne, Bool.and_false, Bool.false_eq_true, if_false, h.2]
      refine congrArg₂ List.cons (by simp) ?_
      apply List.map_congr_left
      intro k _
      have e2 : 1 + k.1 = k.1 + 1 := by omega
      rw [e2]

/-- C4 (witness): the amended theorem at a concrete two-record batch with an
id-carrying first record and a second record falling back to the sequence
name, under a clock that changes between the iterations. -/
theorem C4_witness :
    fileNameFor [("id", JsValue.vStr "a")] 7 "TS" = "a_TS.png" ∧
    fileNameFor [("u", JsValue.vStr "y")] 2 "TS" = "banner_2_TS.png" ∧
    (handleGenerateAll [[("id", JsValue.vStr "a")], [("u", JsValue.vStr "y")]]
        (fun i => if i = 0 then "A" else "B") (fun _ => true)).outcome.allNames
      = [fileNameFor [("id", JsValue.vStr "a")] 1 "A",
          fileNameFor [("u", JsValue.vStr "y")] 2 "B"] := by
  have h := C4_amended [("id", JsValue.vStr "a")] [[("u", JsValue.vStr "y")]]
    (fun i => if i = 0 then "A" else "B") (fun _ => true)
  refine ⟨?_, ?_, ?_⟩
  · have := h.1 [("id", JsValue.vStr "a")] 7 "TS" "a" (by decide) (by decide)
    simpa using this
  · have := h.2.1 [("u", JsValue.vStr "y")] 2 "TS" (by decide)
    simpa using this
  · have := (h.2.2.2 (by decide)).1
    simpa using this

/-- The records the loop processes, and their timestamps, do not depend on
which captures fail: a failing record never aborts the batch. -/
theorem batchLoop_indep_capture (clock : Nat → String) (cap cap' : Nat → Bool) :
    ∀ (l : List BannerData) (i b : Nat),
      (batchLoop clock cap i b l).allNames = (batchLoop clock cap' i b l).allNames ∧
      (batchLoop clock cap i b l).stamps = (batchLoop clock cap' i b l).stamps := by
  intro l
  induction l with
  | nil => intro i b; exact ⟨rfl, rfl⟩
  | cons r rest ih =>
    intro i b
    by_cases hskip : (i = 0 && isEmptyRecord r) = true
    · simpa [batchLoop, hskip] using ih (i + 1) b
    · have h := ih (i + 1) (b + 1)
      simp only [Bool.not_eq_true] at hskip
      simp [batchLoop, hskip, h.1, h.2]

/-- Every processed record is accounted for: one success or one log entry. -/
theorem batchLoop_accounted (clock : Nat → String) (cap : Nat → Bool) :
    ∀ (l : List BannerData) (i b : Nat),
      (batchLoop clock cap i b l).successCount + (batchLoop clock cap i b l).failLog.length
        = (batchLoop clock cap i b l).allNames.length := by
  intro l
  induction l with
  | nil => intro i b; rfl
  | cons r rest ih =>
    intro i b
    by_cases hskip : (i = 0 && isEmptyRecord r) = true
    · simpa [batchLoop, hskip] using ih (i + 1) b
    · have h := ih (i + 1) (b + 1)
      simp only [Bool.not_eq_true] at hskip
      by_cases hcap : cap i = true <;> simp [batchLoop, hskip, hcap] <;> omega

/-- C5 (confirmed): a capture/export failure of one record is logged and
never aborts the batch — the set of processed records (their names and
timestamps) is the same whatever the failure pattern, and every processed
record contributes either a success or a log entry; and when zero records
produced a raster the run is reported as a total failure (error message, no
archive), while any success yields the archive of the collected files. -/
theorem C5_failure_isolated (records : List BannerData) (clock : Nat → String)
    (cap cap' : Nat → Bool) :
    ((handleGenerateAll records clock cap).outcome.allNames
        = (handleGenerateAll records clock cap').outcome.allNames) ∧
    ((handleGenerateAll records clock cap).outcome.successCount
        + (handleGenerateAll records clock cap).outcome.failLog.length
        = (handleGenerateAll records clock cap).outcome.allNames.length) ∧
    ((handleGenerateAll records clock cap).outcome.successCount = 0 →
      (handleGenerateAll records clock cap).archive = none ∧
      (records ≠ [] →
        (handleGenerateAll records clock cap).errorMsg = "没有成功生成任何 Banner")) ∧
    (0 < (handleGenerateAll records clock cap).outcome.successCount →
      (handleGenerateAll records clock cap).archive
        = some (handleGenerateAll records clock cap).outcome.files) := by
  by_cases hnil : records.isEmpty = true
  · have : records = [] := List.isEmpty_iff.mp hnil
    subst this
    refine ⟨rfl, rfl, fun _ => ⟨rfl, fun h => absurd rfl h⟩,
      fun h => by simp [handleGenerateAll] at h⟩
  · have hcons : (handleGenerateAll records clock cap).outcome
        = batchLoop clock cap 0 0 records := by
      simp only [handleGenerateAll, hnil, Bool.false_eq_true, if_false]
      split <;> rfl
    have hcons' : (handleGenerateAll records clock cap').outcome
        = batchLoop clock cap' 0 0 records := by
      simp only [handleGenerateAll, hnil, Bool.false_eq_true, if_false]
      split <;> rfl
    refine ⟨?_, ?_, fun hzero => ?_, fun hpos => ?_⟩
    · rw [hcons, hcons']
      exact (batchLoop_indep_capture clock cap cap' records 0 0).1
    · rw [hcons]
      exact batchLoop_accounted clock cap records 0 0
    · rw [hcons] at hzero
      constructor
      · simp [handleGenerateAll, hnil, hzero]
      · intro _
        simp [handleGenerateAll, hnil, hzero]
    · rw [hcons] at hpos
      have : (batchLoop clock cap 0 0 records).successCount > 0 := hpos
      simp [handleGenerateAll, hnil, hcons, this, Nat.not_eq_zero_of_lt this]

/-- C5 (witness): a three-record batch whose middle capture fails still
names all three records, logs exactly the one failure, and archives the two
successes; an all-failing run of the same batch is reported as a total
failure with no archive. -/
theorem C5_witness :
    (handleGenerateAll [[("id", JsValue.vStr "a")], [("id", JsValue.vStr "b")],
          [("id", JsValue.vStr "c")]] (fun _ => "T") (fun i => i ≠ 1)).outcome.allNames
      = (handleGenerateAll [[("id", JsValue.vStr "a")], [("id", JsValue.vStr "b")],
          [("id", JsValue.vStr "c")]] (fun _ => "T") (fun _ => false)).outcome.allNames ∧
    (handleGenerateAll [[("id", JsValue.vStr "a")], [("id", JsValue.vStr "b")],
          [("id", JsValue.vStr "c")]] (fun _ => "T") (fun _ => false)).archive = none ∧
    (handleGenerateAll [[("id", JsValue.vStr "a")], [("id", JsValue.vStr "b")],
          [("id", JsValue.vStr "c")]] (fun _ => "T") (fun _ => false)).errorMsg
      = "没有成功生成任何 Banner" ∧
    (handleGenerateAll [[("id", JsValue.vStr "a")], [("id", JsValue.vStr "b")],
          [("id", JsValue.vStr "c")]] (fun _ => "T") (fun i => i ≠ 1)).archive
      = some ["a_T.png", "c_T.png"] := by
  have h1 := C5_failure_isolated [[("id", JsValue.vStr "a")], [("id", JsValue.vStr "b")],
    [("id", JsValue.vStr "c")]] (fun _ => "T") (fun i => i ≠ 1) (fun _ => false)
  have h2 := C5_failure_isolated [[("id", JsValue.vStr "a")], [("id", JsValue.vStr "b")],
    [("id", JsValue.vStr "c")]] (fun _ => "T") (fun _ => false) (fun _ => false)
  refine ⟨h1.1, ?_, ?_, ?_⟩
  · exact (h2.2.2.1 (by decide)).1
  · exact (h2.2.2.1 (by decide)).2 (by decide)
  · have := h1.2.2.2 (by decide)
    simpa using this

/-! ## Claim C1: effective image count of the repeated groups -/

/-- `mapIdx` indexes pointwise. -/
theorem mapIdx_getD {α β : Type} (f : Nat → α → β) :
    ∀ (l : List α) (i : Nat) (d : β) (d' : α), i < l.length →
      (l.mapIdx f).getD i d = f i (l.getD i d') := by
  intro l
  induction l generalizing f with
  | nil => intro i d d' h; simp at h
  | cons a t ih =>
    intro i d d' h
    cases i with
    | zero => simp [List.mapIdx_cons]
    | succ j =>
      simp only [List.mapIdx_cons, List.getD_cons_succ]
      exact ih (fun k x => f (k + 1) x) j d d' (by simpa using h)

/-- The grown template list has `max` length. -/
theorem growTo_length (c : List Img) (n : Nat) (h : c ≠ []) :
    (growTo c n).length = max c.length n := by
  unfold growTo
  cases hc : c.getLast? with
  | none => exact absurd (List.getLast?_eq_none_iff.mp hc) h
  | some last =>
    simp only [List.length_append, List.length_replicate]
    omega

/-- A pointwise left inverse cancels `mapIdx`. -/
theorem mapIdx_map_cancel {α β : Type} (f : Nat → α → β) (g : β → α)
    (h : ∀ i a, g (f i a) = a) : ∀ l : List α, (l.mapIdx f).map g = l := by
  intro l
  rw [List.mapIdx_eq_enum_map, List.map_map]
  have hfun : (g ∘ Function.uncurry f) = fun p : Nat × α => p.2 :=
    funext fun p => h p.1 p.2
  rw [hfun]
  exact List.enum_map_snd l

/-- C1 (counterexample): for the gift group with `srcs = ["a.png","b.png"]`
and no `qty`, the claim demands an effective image count of `len(srcs) = 2`,
but the code defaults the gift qty to 1 and resolves a single image. -/
theorem C1_counterexample :
    giftResolvedSrcs [("gift_products_src", JsValue.vArr ["a.png", "b.png"])] []
      = ["a.png"] ∧
    (giftResolvedSrcs [("gift_products_src", JsValue.vArr ["a.png", "b.png"])] []).length
      ≠ 2 := by
  refine ⟨by decide, by decide⟩

/-- C1 (amended): when `qty` is absent the main-product group defaults to
the length of `srcs` (so its effective count is `len(srcs)`), while the gift
group defaults `qty` to 1 (so its effective count is `min 1 len(srcs)`).
When `srcs` has exactly one element it is replicated `qty` times — with
`srcs = [x]` and `qty = n` all `n` resolved slots reference `x`, in the gift
group via the rebuilt container and in the main-product group via the first
`n` shown slots. When `srcs` has more than one element and `qty ≥ 1`, the
first `min(qty, len(srcs))` sources are used (so the count is capped at
`len(srcs)`). -/
theorem C1_amended :
    (∀ base : List String, (computeImgs base (productQty base none)).length = base.length) ∧
    (∀ base : List String, (computeImgs base (giftQty none)).length = min 1 base.length) ∧
    (∀ (x : String) (n : Nat), computeImgs [x] n = List.replicate n x) ∧
    (∀ (base : List String) (n : Nat), 2 ≤ base.length → 1 ≤ n →
      computeImgs base n = base.take (min n base.length)) ∧
    (∀ (data : BannerData) (edits : Edits) (raw : JsValue),
      data.lookup "gift_products_src" = some raw →
      edits.lookup "gift_products_src" = none →
      resolveRaw edits data "gift_products_qty" = none →
      giftResolvedSrcs data edits = computeImgs (toBaseImgs raw) 1) ∧
    (∀ (data : BannerData) (edits : Edits) (raw : JsValue),
      data.lookup "product_main_src" = some raw →
      edits.lookup "product_main_src" = none →
      resolveRaw edits data "product_main_qty" = none →
      productResolvedSrcs data edits
        = computeImgs (toBaseImgs raw) (productQty (toBaseImgs raw) none)) ∧
    (∀ imgs : List String, (bindGiftImgs imgs).map (fun img => img.src) = imgs) ∧
    (∀ (c : List Img) (imgs : List String) (i : Nat) (d : Img), c ≠ [] →
      i < imgs.length →
      ((bindProductImgs c imgs).getD i d).src = imgs.getD i "" ∧
      ((bindProductImgs c imgs).getD i d).display = "") := by
  refine ⟨?_, ?_, ?_, ?_, ?_, ?_, ?_, ?_⟩
  · intro base
    match base with
    | [] => rfl
    | [x] => rfl
    | x :: y :: t =>
      simp only [computeImgs, productQty, Option.getD_none]
      rw [if_neg (by simp)]
      simp only [List.length_take, List.length_cons]
      omega
  · intro base
    match base with
    | [] => rfl
    | [x] => rfl
    | x :: y :: t =>
      simp only [computeImgs, giftQty, Option.getD_none, List.length_cons,
        List.length_take]
      omega
  · intro x n; rfl
  · intro base n h2 h1
    match base with
    | x :: y :: t =>
      simp only [computeImgs]
      have hmax : max 1 n = n := by omega
      rw [hmax, ← List.take_take, List.take_length]
  · intro data edits raw hd he hq
    have h1 : resolveRaw edits data "gift_products_src" = some raw := by
      simp [resolveRaw, he, hd]
    simp [giftResolvedSrcs, h1, hq, giftQty]
  · intro data edits raw hd he hq
    have h1 : resolveRaw edits data "product_main_src" = some raw := by
      simp [resolveRaw, he, hd]
    simp [productResolvedSrcs, h1, hq]
  · intro imgs
    exact mapIdx_map_cancel _ _ (fun _ _ => rfl) imgs
  · intro c imgs i d hc hi
    have hgrow : i < (growTo c imgs.length).length := by
      rw [growTo_length c imgs.length hc]
      omega
    have hbind : bindProductImgs c imgs
        = (growTo c imgs.length).mapIdx fun i img =>
            if i < imgs.length then { img with src := imgs.getD i "", display := "" }
            else { img with display := "none" } := by
      rw [bindProductImgs, if_neg (by simpa [List.isEmpty_iff] using hc)]
    rw [hbind, mapIdx_getD _ _ _ _ d hgrow, if_pos hi]
    exact ⟨rfl, rfl⟩

/-- C1 (witness): the amended theorem instantiated concretely — the
`srcs = ["a.png"], qty = 3` scenario replicated into three gift slots all
referencing `"a.png"`, the multi-source take, the group defaults, and the
shown product slot. -/
theorem C1_witness :
    (computeImgs ["a", "b"] (productQty ["a", "b"] none)).length = 2 ∧
    (computeImgs ["a", "b"] (giftQty none)).length = min 1 2 ∧
    computeImgs ["a.png"] 3 = List.replicate 3 "a.png" ∧
    computeImgs ["a", "b", "c"] 2 = (["a", "b", "c"] : List String).take (min 2 3) ∧
    giftResolvedSrcs [("gift_products_src", JsValue.vArr ["a", "b"])] []
      = computeImgs ["a", "b"] 1 ∧
    ((bindProductImgs
        [{ src := "t.png", alt := "", classes := ["keep"], dataField := none,
            dataLabel := none, display := "" }] ["a.png", "a.png"]).getD 1
      { src := "", alt := "", classes := [], dataField := none, dataLabel := none,
        display := "" }).src = "a.png" := by
  have h := C1_amended
  refine ⟨h.1 ["a", "b"], h.2.1 ["a", "b"], h.2.2.1 "a.png" 3,
    h.2.2.2.1 ["a", "b", "c"] 2 (by decide) (by decide),
    h.2.2.2.2.1 [("gift_products_src", JsValue.vArr ["a", "b"])] []
      (JsValue.vArr ["a", "b"]) (by decide) (by decide) (by decide),
    (h.2.2.2.2.2.2.2
      [{ src := "t.png", alt := "", classes := ["keep"], dataField := none,
          dataLabel := none, display := "" }] ["a.png", "a.png"] 1
      { src := "", alt := "", classes := [], dataField := none, dataLabel := none,
        display := "" } (by decide) (by decide)).1⟩

/-! ## Claim C3: placeholder reuse in the group containers -/

/-- A template gift placeholder img (carries a class of its own). -/
def giftPlaceholderImg : Img :=
  { src := "g.png", alt := "", classes := ["placeholder"], dataField := none,
    dataLabel := none, display := "" }

/-- A render target whose gift container holds three placeholder imgs. -/
def giftDoc3 : Doc :=
  { price := none, product := none,
    gift := some [giftPlaceholderImg, giftPlaceholderImg, giftPlaceholderImg],
    slots := [] }

/-- C3 (counterexample): a gift container holding three placeholder imgs,
bound with a single gift source. The claim demands the placeholders be
reused and the two surplus ones hidden (so three elements would remain, two
of them hidden, with their classes preserved); the code instead clears the
container and synthesizes one fresh element — nothing is hidden and the
placeholder class is gone. -/
theorem C3_counterexample :
    ((applyJsonData giftDoc3 [("gift_products_src", JsValue.vStr "a.png")] []).gift.getD
        []).length = 1 ∧
    ¬(((applyJsonData giftDoc3 [("gift_products_src", JsValue.vStr "a.png")] []).gift.getD
        []).length = 3) ∧
    (((applyJsonData giftDoc3 [("gift_products_src", JsValue.vStr "a.png")] []).gift.getD
        []).filter (fun img => img.display = "none")).length = 0 ∧
    ((applyJsonData giftDoc3 [("gift_products_src", JsValue.vStr "a.png")] []).gift.getD
        []).all (fun img => img.classes = ["giftproductsimg-1"]) = true := by
  refine ⟨by decide, by decide, by decide, by decide⟩

/-- C3 (amended): the reuse/hide/synthesize-only-if-empty behaviour holds
for the main-product group only — existing placeholders are reused (their
classes and attributes preserved, the shown ones getting the new `src` and a
visible display) and grown by cloning the last placeholder, surplus
placeholders are hidden via `display:none` rather than deleted, and fresh
elements are synthesized only when the container held no imgs at all. The
gift group instead always empties its container (independently of what it
held) and synthesizes fresh imgs carrying the `giftproductsimg-{count}`
class. -/
theorem C3_amended :
    (∀ (c : List Img) (imgs : List String), c ≠ [] →
      (bindProductImgs c imgs).length = max c.length imgs.length) ∧
    (∀ (c : List Img) (imgs : List String) (i : Nat) (d : Img), c ≠ [] →
      imgs.length ≤ i → i < max c.length imgs.length →
      (bindProductImgs c imgs).getD i d
        = { (growTo c imgs.length).getD i d with display := "none" }) ∧
    (∀ (c : List Img) (imgs : List String) (i : Nat) (d : Img), c ≠ [] →
      i < imgs.length →
      (bindProductImgs c imgs).getD i d
        = { (growTo c imgs.length).getD i d with src := imgs.getD i "", display := "" }) ∧
    (∀ (c : List Img) (n : Nat) (last : Img), c.getLast? = some last →
      growTo c n = c ++ List.replicate (n - c.length) last) ∧
    (∀ imgs : List String, bindProductImgs [] imgs = imgs.map freshProductImg) ∧
    (∀ (p : Option PriceEl) (pr : Option (List Img)) (c₁ c₂ : List Img)
        (sl : List Slot) (data : BannerData) (edits : Edits),
      (data.lookup "gift_products_src").isSome = true →
      (applyGiftStep ⟨p, pr, some c₁, sl⟩ data edits).gift
        = (applyGiftStep ⟨p, pr, some c₂, sl⟩ data edits).gift) ∧
    (∀ (imgs : List String) (img : Img), img ∈ bindGiftImgs imgs →
      img.classes = ["giftproductsimg-" ++ toString imgs.length]) := by
  have hbind : ∀ (c : List Img) (imgs : List String), c ≠ [] →
      bindProductImgs c imgs
        = (growTo c imgs.length).mapIdx fun i img =>
            if i < imgs.length then { img with src := imgs.getD i "", display := "" }
            else { img with display := "none" } := by
    intro c imgs hc
    rw [bindProductImgs, if_neg (by simpa [List.isEmpty_iff] using hc)]
  refine ⟨?_, ?_, ?_, ?_, ?_, ?_, ?_⟩
  · intro c imgs hc
    rw [hbind c imgs hc, List.length_mapIdx, growTo_length c imgs.length hc]
  · intro c imgs i d hc hge hlt
    have hgrow : i < (growTo c imgs.length).length := by
      rw [growTo_length c imgs.length hc]; omega
    rw [hbind c imgs hc, mapIdx_getD _ _ _ _ d hgrow, if_neg (by omega)]
  · intro c imgs i d hc hi
    have hgrow : i < (growTo c imgs.length).length := by
      rw [growTo_length c imgs.length hc]; omega
    rw [hbind c imgs hc, mapIdx_getD _ _ _ _ d hgrow, if_pos hi]
  · intro c n last hlast
    rw [growTo, hlast]
  · intro imgs
    rfl
  · intro p pr c₁ c₂ sl data edits h
    simp [applyGiftStep, h]
  · intro imgs img hmem
    rw [bindGiftImgs, List.mapIdx_eq_enum_map] at hmem
    obtain ⟨q, _, hq⟩ := List.mem_map.mp hmem
    rw [← hq]
    rfl

/-- C3 (witness): the amended theorem at a three-placeholder product
container bound with one source (surplus slots hidden in place, classes
kept), a fresh-synthesis case, and the gift rebuild at two different
initial containers. -/
theorem C3_witness :
    (bindProductImgs [giftPlaceholderImg, giftPlaceholderImg, giftPlaceholderImg]
        ["a.png"]).length = max 3 1 ∧
    (bindProductImgs [giftPlaceholderImg, giftPlaceholderImg, giftPlaceholderImg]
        ["a.png"]).getD 1 giftPlaceholderImg
      = { (growTo [giftPlaceholderImg, giftPlaceholderImg, giftPlaceholderImg] 1).getD 1
            giftPlaceholderImg with display := "none" } ∧
    bindProductImgs [] ["x.png"] = ["x.png"].map freshProductImg ∧
    (applyGiftStep ⟨none, none, some [giftPlaceholderImg], []⟩
        [("gift_products_src", JsValue.vStr "a.png")] []).gift
      = (applyGiftStep ⟨none, none, some [], []⟩
        [("gift_products_src", JsValue.vStr "a.png")] []).gift := by
  have h := C3_amended
  refine ⟨h.1 _ _ (by decide), h.2.1 _ _ 1 _ (by decide) (by decide) (by decide),
    h.2.2.2.2.1 ["x.png"],
    h.2.2.2.2.2.1 none none [giftPlaceholderImg] [] []
      [("gift_products_src", JsValue.vStr "a.png")] [] (by decide)⟩

/-! ## Claim C7: override-else-record resolution

`slotsValue?` reads the value of the first slot carrying a name — the
element `querySelector` would return among the standalone slots. -/

/-- The value held by the first slot with the given name. -/
def slotsValue? (l : List Slot) (name : String) : Option String :=
  (l.find? (fun s => s.name = name)).map (fun s => s.value)

/-- `setSlotFirst` preserves the slot names. -/
theorem setSlotFirst_names : ∀ (l : List Slot) (n : String) (v : String),
    (setSlotFirst l n v).map (fun s => s.name) = l.map (fun s => s.name) := by
  intro l n v
  induction l with
  | nil => rfl
  | cons s rest ih =>
    by_cases h : s.name = n <;> simp [setSlotFirst, h, ih]

/-- Writing one name does not disturb another name's first slot. -/
theorem slotsValue?_set_ne : ∀ (l : List Slot) (n v name : String), n ≠ name →
    slotsValue? (setSlotFirst l n v) name = slotsValue? l name := by
  intro l n v name hne
  induction l with
  | nil => rfl
  | cons s rest ih =>
    by_cases h : s.name = n
    · have hs : (s.name = name) = False := by simp [h, hne]
      simp [setSlotFirst, h, slotsValue?, List.find?, hs, hne]
    · by_cases h2 : s.name = name
      · simp [setSlotFirst, h, slotsValue?, List.find?, h2, Ne.symm hne]
      · simpa [setSlotFirst, h, slotsValue?, List.find?, h2] using ih

/-- Writing a present name sets its first slot's value. -/
theorem slotsValue?_set_eq : ∀ (l : List Slot) (n v : String),
    l.any (fun s => s.name = n) = true →
    slotsValue? (setSlotFirst l n v) n = some v := by
  intro l n v hany
  induction l with
  | nil => simp at hany
  | cons s rest ih =>
    by_cases h : s.name = n
    · simp [setSlotFirst, h, slotsValue?, List.find?]
    · have : rest.any (fun s => s.name = n) = true := by
        simpa [List.any_cons, h] using hany
      simpa [setSlotFirst, h, slotsValue?, List.find?] using ih this

/-- When the name has a standalone slot, `setFieldValue` is a pure slot
write. -/
theorem setFieldValue_of_any (d : Doc) (n v : String)
    (h : d.slots.any (fun s => s.name = n) = true) :
    setFieldValue d n v = { d with slots := setSlotFirst d.slots n v } := by
  rw [setFieldValue, if_pos h]

/-- `setFieldValue` never changes the slot names. -/
theorem setFieldValue_names (d : Doc) (n v : String) :
    (setFieldValue d n v).slots.map (fun s => s.name)
      = d.slots.map (fun s => s.name) := by
  rw [setFieldValue]
  split
  · exact setSlotFirst_names d.slots n v
  · split
    · rfl
    · split <;> rfl

/-- `setFieldValue` of a different name preserves a name's first-slot
value. -/
theorem slotsValue?_setFieldValue_ne (d : Doc) (n v name : String) (h : n ≠ name) :
    slotsValue? (setFieldValue d n v).slots name = slotsValue? d.slots name := by
  rw [setFieldValue]
  split
  · exact slotsValue?_set_ne d.slots n v name h
  · split
    · rfl
    · split <;> rfl

/-- Equal name lists give equal name membership. -/
theorem any_name_eq_of_names_eq : ∀ (l₁ l₂ : List Slot) (n : String),
    l₁.map (fun s => s.name) = l₂.map (fun s => s.name) →
    l₁.any (fun s => s.name = n) = l₂.any (fun s => s.name = n) := by
  intro l₁
  induction l₁ with
  | nil =>
    intro l₂ n h
    cases l₂ with
    | nil => rfl
    | cons b u => simp at h
  | cons a t ih =>
    intro l₂ n h
    cases l₂ with
    | nil => simp at h
    | cons b u =>
      simp only [List.map_cons, List.cons.injEq] at h
      simp [List.any_cons, h.1, ih u n h.2]

/-- One step of the generic loop. -/
theorem applyGenericStep_cons (d : Doc) (e : String × JsValue) (rest : BannerData)
    (edits : Edits) :
    applyGenericStep d (e :: rest) edits
      = applyGenericStep
          (if specialFields.contains e.1 then d
           else
             match e.2 with
             | .vArr _ => d
             | v => setFieldValue d e.1 ((edits.lookup e.1).getD v.jsString))
          rest edits := rfl

/-- The generic loop preserves the slot names. -/
theorem applyGenericStep_names (edits : Edits) : ∀ (data : BannerData) (d : Doc),
    (applyGenericStep d data edits).slots.map (fun s => s.name)
      = d.slots.map (fun s => s.name) := by
  intro data
  induction data with
  | nil => intro d; rfl
  | cons e rest ih =>
    intro d
    rw [applyGenericStep_cons, ih]
    split
    · rfl
    · split
      · rfl
      · exact setFieldValue_names d e.1 _

/-- The generic loop leaves names it never binds untouched. -/
theorem applyGenericStep_value_notmem (edits : Edits) :
    ∀ (data : BannerData) (d : Doc) (name : String),
      name ∉ data.map Prod.fst →
      slotsValue? (applyGenericStep d data edits).slots name
        = slotsValue? d.slots name := by
  intro data
  induction data with
  | nil => intro d name _; rfl
  | cons e rest ih =>
    intro d name hnot
    have hne : e.1 ≠ name := fun h => hnot (by simp [h])
    have hrest : name ∉ rest.map Prod.fst := fun h => hnot (by simp [h])
    rw [applyGenericStep_cons, ih _ _ hrest]
    split
    · rfl
    · split
      · rfl
      · exact slotsValue?_setFieldValue_ne d e.1 _ name hne

/-- `lookup` on a cons with a different key. -/
theorem lookup_cons_ne {β : Type} (k a : String) (w : β) (rest : List (String × β))
    (h : a ≠ k) : List.lookup a ((k, w) :: rest) = List.lookup a rest := by
  have hb : (a == k) = false := beq_eq_false_iff_ne.mpr h
  simp [List.lookup, hb]

/-- `lookup` on a cons with the same key. -/
theorem lookup_cons_eq {β : Type} (k : String) (w : β) (rest : List (String × β)) :
    List.lookup k ((k, w) :: rest) = some w := by
  simp [List.lookup]

/-- A missing lookup means the key is not among the entries. -/
theorem notmem_of_lookup_none {β : Type} :
    ∀ (l : List (String × β)) (a : String), l.lookup a = none →
      a ∉ l.map Prod.fst := by
  intro l
  induction l with
  | nil => intro a _ h; simp at h
  | cons e rest ih =>
    intro a hl hmem
    by_cases h : a = e.1
    · rw [h, lookup_cons_eq e.1 e.2 rest] at hl
      exact Option.noConfusion hl
    · have hl2 : rest.lookup a = none := by
        rwa [lookup_cons_ne e.1 a e.2 rest h] at hl
      rcases List.mem_map.mp hmem with ⟨p, hp, hpa⟩
      rcases List.mem_cons.mp hp with h1 | h1
      · exact h (by rw [← hpa, h1])
      · exact ih a hl2 (List.mem_map.mpr ⟨p, h1, hpa⟩)

/-- The names survive one generic-loop body step. -/
theorem genericBody_names (d : Doc) (e : String × JsValue) (edits : Edits) :
    ((if specialFields.contains e.1 then d
      else
        match e.2 with
        | .vArr _ => d
        | v => setFieldValue d e.1 ((edits.lookup e.1).getD v.jsString)) :
      Doc).slots.map (fun s => s.name) = d.slots.map (fun s => s.name) := by
  split
  · rfl
  · split
    · rfl
    · exact setFieldValue_names d e.1 _

theorem applyGenericStep_value_found (edits : Edits) :
    ∀ (data : BannerData) (d : Doc) (name : String) (v : JsValue),
      (data.map Prod.fst).Nodup →
      data.lookup name = some v →
      specialFields.contains name = false →
      (∀ l, v ≠ .vArr l) →
      d.slots.any (fun s => s.name = name) = true →
      slotsValue? (applyGenericStep d data edits).slots name
        = some ((edits.lookup name).getD v.jsString) := by
  intro data
  induction data with
  | nil => intro d name v _ hl; simp [List.lookup] at hl
  | cons e rest ih =>
    obtain ⟨k, w⟩ := e
    intro d name v hnodup hl hspec harr hany
    by_cases h : k = name
    · subst h
      have hv : w = v := by
        rw [lookup_cons_eq k w rest] at hl
        exact Option.some.inj hl
      have hnotrest : k ∉ rest.map Prod.fst := by
        simpa using (List.nodup_cons.mp hnodup).1
      rw [applyGenericStep_cons]
      have hbody :
          (if specialFields.contains (k, w).1 then d
           else
             match (k, w).2 with
             | .vArr _ => d
             | u => setFieldValue d (k, w).1 ((edits.lookup (k, w).1).getD u.jsString))
            = setFieldValue d k ((edits.lookup k).getD v.jsString) := by
        rw [if_neg (by
          show ¬(specialFields.contains k = true)
          rw [hspec]
          exact Bool.false_ne_true), hv]
        match v, harr with
        | .vStr s, _ => rfl
        | .vNum n, _ => rfl
        | .vArr l, harr => exact absurd rfl (harr l)
      rw [hbody, applyGenericStep_value_notmem edits rest _ k hnotrest,
        setFieldValue_of_any d k _ hany]
      exact slotsValue?_set_eq d.slots k _ hany
    · have hlrest : rest.lookup name = some v := by
        rwa [lookup_cons_ne k name w rest (Ne.symm h)] at hl
      rw [applyGenericStep_cons]
      refine ih _ name v (List.nodup_cons.mp hnodup).2 hlrest hspec harr ?_
      rw [any_name_eq_of_names_eq _ d.slots name (genericBody_names d (k, w) edits)]
      exact hany

/-- One step of the overlay-only loop. -/
theorem applyEditsStep_cons (d : Doc) (e : String × String) (rest : Edits)
    (data : BannerData) :
    applyEditsStep d data (e :: rest)
      = applyEditsStep
          (if (data.lookup e.1).isSome then d
           else if specialFields.contains e.1 then d
           else setFieldValue d e.1 e.2)
          data rest := rfl

/-- The overlay-only loop preserves the slot names. -/
theorem applyEditsStep_names (data : BannerData) : ∀ (edits : Edits) (d : Doc),
    (applyEditsStep d data edits).slots.map (fun s => s.name)
      = d.slots.map (fun s => s.name) := by
  intro edits
  induction edits with
  | nil => intro d; rfl
  | cons e rest ih =>
    intro d
    rw [applyEditsStep_cons, ih]
    split
    · rfl
    · split
      · rfl
      · exact setFieldValue_names d e.1 _

/-- The overlay-only loop leaves names it never binds untouched. -/
theorem applyEditsStep_value_notmem (data : BannerData) :
    ∀ (edits : Edits) (d : Doc) (name : String),
      name ∉ edits.map Prod.fst →
      slotsValue? (applyEditsStep d data edits).slots name
        = slotsValue? d.slots name := by
  intro edits
  induction edits with
  | nil => intro d name _; rfl
  | cons e rest ih =>
    intro d name hnot
    have hne : e.1 ≠ name := fun h => hnot (by simp [h])
    have hrest : name ∉ rest.map Prod.fst := fun h => hnot (by simp [h])
    rw [applyEditsStep_cons, ih _ _ hrest]
    split
    · rfl
    · split
      · rfl
      · exact slotsValue?_setFieldValue_ne d e.1 _ name hne

/-- The overlay-only loop never touches a field the record carries. -/
theorem applyEditsStep_value_dataPresent (data : BannerData) :
    ∀ (edits : Edits) (d : Doc) (name : String),
      (data.lookup name).isSome = true →
      slotsValue? (applyEditsStep d data edits).slots name
        = slotsValue? d.slots name := by
  intro edits
  induction edits with
  | nil => intro d name _; rfl
  | cons e rest ih =>
    intro d name hsome
    rw [applyEditsStep_cons]
    by_cases h : e.1 = name
    · rw [if_pos (by rw [h]; exact hsome)]
      exact ih d name hsome
    · rw [ih _ name hsome]
      split
      · rfl
      · split
        · rfl
        · exact slotsValue?_setFieldValue_ne d e.1 _ name h

/-- The names survive one overlay-loop body step. -/
theorem editsBody_names (d : Doc) (e : String × String) (data : BannerData) :
    ((if (data.lookup e.1).isSome then d
      else if specialFields.contains e.1 then d
      else setFieldValue d e.1 e.2) : Doc).slots.map (fun s => s.name)
      = d.slots.map (fun s => s.name) := by
  split
  · rfl
  · split
    · rfl
    · exact setFieldValue_names d e.1 _

/-- The overlay-only loop binds an overlay entry whose name is absent from
the record. -/
theorem applyEditsStep_value_found (data : BannerData) :
    ∀ (edits : Edits) (d : Doc) (name s : String),
      (edits.map Prod.fst).Nodup →
      data.lookup name = none →
      edits.lookup name = some s →
      specialFields.contains name = false →
      d.slots.any (fun sl => sl.name = name) = true →
      slotsValue? (applyEditsStep d data edits).slots name = some s := by
  intro edits
  induction edits with
  | nil => intro d name s _ _ hl; simp [List.lookup] at hl
  | cons e rest ih =>
    obtain ⟨k, w⟩ := e
    intro d name s hnodup hd hl hspec hany
    by_cases h : k = name
    · subst h
      have hv : w = s := by
        rw [lookup_cons_eq k w rest] at hl
        exact Option.some.inj hl
      have hnotrest : k ∉ rest.map Prod.fst := by
        simpa using (List.nodup_cons.mp hnodup).1
      rw [applyEditsStep_cons, if_neg (by
          show ¬((data.lookup k).isSome = true)
          rw [hd]
          simp),
        if_neg (by
          show ¬(specialFields.contains k = true)
          rw [hspec]
          exact Bool.false_ne_true), hv,
        applyEditsStep_value_notmem data rest _ k hnotrest,
        setFieldValue_of_any d k s hany]
      exact slotsValue?_set_eq d.slots k s hany
    · have hlrest : rest.lookup name = some s := by
        rwa [lookup_cons_ne k name w rest (Ne.symm h)] at hl
      rw [applyEditsStep_cons]
      refine ih _ name s (List.nodup_cons.mp hnodup).2 hd hlrest hspec ?_
      rw [any_name_eq_of_names_eq _ d.slots name (editsBody_names d (k, w) data)]
      exact hany

/-- The price step never touches the slots. -/
theorem applyPriceStep_slots (d : Doc) (data : BannerData) (edits : Edits) :
    (applyPriceStep d data edits).slots = d.slots := by
  rw [applyPriceStep]
  split <;> rfl

/-- The product step never touches the slots. -/
theorem applyProductStep_slots (d : Doc) (data : BannerData) (edits : Edits) :
    (applyProductStep d data edits).slots = d.slots := by
  rw [applyProductStep]
  split
  · split <;> rfl
  · rfl

/-- The gift step never touches the slots. -/
theorem applyGiftStep_slots (d : Doc) (data : BannerData) (edits : Edits) :
    (applyGiftStep d data edits).slots = d.slots := by
  rw [applyGiftStep]
  split
  · split <;> rfl
  · split
    · split <;> rfl
    · rfl

/-- C7 (counterexample): a record field `foo` holding an array (a value the
declared data model allows for any field) with an overlay `foo = "Y"` for the
same index: the claim demands the overlay value be bound, but the generic
loop skips array-valued fields entirely and the overlay-only loop skips
every field present in the record, so the slot keeps its old value. -/
theorem C7_counterexample :
    slotsValue? ((applyJsonData ⟨none, none, none, [⟨"foo", "old"⟩]⟩
        [("foo", JsValue.vArr ["a"])] [("foo", "Y")]).slots) "foo" = some "old" ∧
    (some "old" : Option String) ≠ some "Y" := by
  refine ⟨by decide, by decide⟩

/-- C7 (amended): for scalar (string/number) record values of non-special
fields that have a standalone slot, the bound value is the overlay value
when one exists for the (index, field) pair, else the record's value; an
overlay-only field absent from the record is bound to the overlay value;
when neither record nor overlay carry the field, the slot is left unchanged.
A non-special field whose record value is an array is skipped entirely, even
when an overlay exists. -/
theorem C7_amended (doc : Doc) (data : BannerData) (edits : Edits) (name : String)
    (hspec : specialFields.contains name = false)
    (hnodupD : (data.map Prod.fst).Nodup)
    (hnodupE : (edits.map Prod.fst).Nodup)
    (hany : doc.slots.any (fun s => s.name = name) = true) :
    (∀ v : JsValue, data.lookup name = some v → (∀ l, v ≠ .vArr l) →
      slotsValue? (applyJsonData doc data edits).slots name
        = some ((edits.lookup name).getD v.jsString)) ∧
    (∀ s : String, data.lookup name = none → edits.lookup name = some s →
      slotsValue? (applyJsonData doc data edits).slots name = some s) ∧
    (data.lookup name = none → edits.lookup name = none →
      slotsValue? (applyJsonData doc data edits).slots name
        = slotsValue? doc.slots name) := by
  have hS : (applyGiftStep (applyProductStep (applyPriceStep doc data edits)
      data edits) data edits).slots = doc.slots := by
    rw [applyGiftStep_slots, applyProductStep_slots, applyPriceStep_slots]
  have hany3 : (applyGiftStep (applyProductStep (applyPriceStep doc data edits)
      data edits) data edits).slots.any (fun s => s.name = name) = true := by
    rw [hS]; exact hany
  have happly : applyJsonData doc data edits
      = applyEditsStep (applyGenericStep
          (applyGiftStep (applyProductStep (applyPriceStep doc data edits)
            data edits) data edits) data edits) data edits := rfl
  refine ⟨?_, ?_, ?_⟩
  · intro v hv harr
    rw [happly, applyEditsStep_value_dataPresent data edits _ name (by rw [hv]; rfl)]
    exact applyGenericStep_value_found edits data _ name v hnodupD hv hspec harr hany3
  · intro s hdnone henone
    have hanyG : (applyGenericStep (applyGiftStep (applyProductStep
        (applyPriceStep doc data edits) data edits) data edits) data
          edits).slots.any (fun sl => sl.name = name) = true := by
      rw [any_name_eq_of_names_eq _ _ name (applyGenericStep_names edits data _)]
      exact hany3
    rw [happly]
    exact applyEditsStep_value_found data edits _ name s hnodupE hdnone henone hspec hanyG
  · intro hdnone henone
    have hnotmemD : name ∉ data.map Prod.fst := notmem_of_lookup_none data name hdnone
    have hnotmemE : name ∉ edits.map Prod.fst := notmem_of_lookup_none edits name henone
    rw [happly, applyEditsStep_value_notmem data edits _ name hnotmemE,
      applyGenericStep_value_notmem edits data _ name hnotmemD, hS]

/-- C7 (witness): the overlay precedence scenario of the claim — record
`{title:"X"}` at index 0 with overlay `{0:{title:"Y"}}` binds the title slot
to `"Y"`, via the amended theorem. -/
theorem C7_witness :
    slotsValue? ((applyJsonData ⟨none, none, none, [⟨"title", "old"⟩]⟩
        [("title", JsValue.vStr "X")] [("title", "Y")]).slots) "title" = some "Y" := by
  have h := (C7_amended ⟨none, none, none, [⟨"title", "old"⟩]⟩
      [("title", JsValue.vStr "X")] [("title", "Y")] "title" (by decide) (by decide)
      (by decide) (by decide)).1 (JsValue.vStr "X") (by decide)
      (fun l hl => JsValue.noConfusion hl)
  rw [h]
  decide

/-! ## Claim C2: the composite price slot

Counting and membership lemmas for the child-list operations used by
`updatePriceFields`. -/

/-- The text content of a price child. -/
def PriceChild.textContent : PriceChild → String
  | .textNode v => v
  | .elemNode _ t => t

/-- Number of integer sub-elements among the children. -/
def countIntSpans (l : List PriceChild) : Nat :=
  l.countP (fun c => c.isIntSpan)

/-- Number of decimal sub-elements among the children. -/
def countDecSpans (l : List PriceChild) : Nat :=
  l.countP (fun c => c.isDecSpan)

/-- A well-formed price slot: at most one integer and one decimal
sub-element, no element doubling as both, and no integer sub-element
carrying the legacy `decimal` marker class. -/
def PriceSlotInv (p : PriceEl) : Prop :=
  countIntSpans p.children ≤ 1 ∧ countDecSpans p.children ≤ 1 ∧
  (∀ c ∈ p.children, ¬(c.isIntSpan = true ∧ c.isDecSpan = true)) ∧
  (∀ c ∈ p.children, c.isIntSpan = true → c.hasClass "decimal" = false)

instance (p : PriceEl) : Decidable (PriceSlotInv p) := by
  unfold PriceSlotInv
  infer_instance

theorem setAt_length (x : PriceChild) :
    ∀ (l : List PriceChild) (i : Nat), (setAt l i x).length = l.length := by
  intro l
  induction l with
  | nil => intro i; rfl
  | cons a t ih =>
    intro i
    cases i with
    | zero => rfl
    | succ j => simpa [setAt] using ih j

theorem mem_setAt (x c : PriceChild) :
    ∀ (l : List PriceChild) (i : Nat), c ∈ setAt l i x → c = x ∨ c ∈ l := by
  intro l
  induction l with
  | nil => intro i h; simp [setAt] at h
  | cons a t ih =>
    intro i h
    cases i with
    | zero =>
      rcases List.mem_cons.mp h with h1 | h1
      · exact Or.inl h1
      · exact Or.inr (List.mem_cons.mpr (Or.inr h1))
    | succ j =>
      rcases List.mem_cons.mp h with h1 | h1
      · exact Or.inr (List.mem_cons.mpr (Or.inl h1))
      · rcases ih j h1 with h2 | h2
        · exact Or.inl h2
        · exact Or.inr (List.mem_cons.mpr (Or.inr h2))

theorem self_mem_setAt (x : PriceChild) :
    ∀ (l : List PriceChild) (i : Nat), i < l.length → x ∈ setAt l i x := by
  intro l
  induction l with
  | nil => intro i h; simp at h
  | cons a t ih =>
    intro i h
    cases i with
    | zero => exact List.mem_cons.mpr (Or.inl rfl)
    | succ j => exact List.mem_cons.mpr (Or.inr (ih j (by simpa using h)))

theorem getD_mem (d : PriceChild) :
    ∀ (l : List PriceChild) (i : Nat), i < l.length → l.getD i d ∈ l := by
  intro l
  induction l with
  | nil => intro i h; simp at h
  | cons a t ih =>
    intro i h
    cases i with
    | zero => exact List.mem_cons.mpr (Or.inl rfl)
    | succ j => exact List.mem_cons.mpr (Or.inr (ih j (by simpa using h)))

theorem countP_setAt_same (p : PriceChild → Bool) (x d : PriceChild) :
    ∀ (l : List PriceChild) (i : Nat), i < l.length → p (l.getD i d) = p x →
      (setAt l i x).countP p = l.countP p := by
  intro l
  induction l with
  | nil => intro i h; simp at h
  | cons a t ih =>
    intro i h hp
    cases i with
    | zero =>
      simp only [List.getD_cons_zero] at hp
      simp [setAt, List.countP_cons, hp]
    | succ j =>
      simp only [List.getD_cons_succ] at hp
      simp [setAt, List.countP_cons, ih j (by simpa using h) hp]

theorem countP_insertAt (p : PriceChild → Bool) (x : PriceChild)
    (l : List PriceChild) (j : Nat) :
    (insertAt l j x).countP p = l.countP p + (if p x then 1 else 0) := by
  rw [insertAt, List.countP_append, List.countP_cons]
  have := List.take_append_drop j l
  calc (l.take j).countP p + ((l.drop j).countP p + if p x then 1 else 0)
      = ((l.take j).countP p + (l.drop j).countP p) + (if p x then 1 else 0) := by omega
    _ = ((l.take j ++ l.drop j).countP p) + (if p x then 1 else 0) := by
        rw [List.countP_append]
    _ = l.countP p + (if p x then 1 else 0) := by rw [List.take_append_drop]

theorem mem_insertAt (x c : PriceChild) (l : List PriceChild) (j : Nat) :
    c ∈ insertAt l j x → c = x ∨ c ∈ l := by
  intro h
  rw [insertAt] at h
  rcases List.mem_append.mp h with h1 | h1
  · exact Or.inr (List.mem_of_mem_take h1)
  · rcases List.mem_cons.mp h1 with h2 | h2
    · exact Or.inl h2
    · exact Or.inr (List.mem_of_mem_drop h2)

theorem self_mem_insertAt (x : PriceChild) (l : List PriceChild) (j : Nat) :
    x ∈ insertAt l j x := by
  rw [insertAt]
  exact List.mem_append.mpr (Or.inr (List.mem_cons.mpr (Or.inl rfl)))

theorem two_mem_le_countP (p : PriceChild → Bool) :
    ∀ (l : List PriceChild) (c₁ c₂ : PriceChild), c₁ ∈ l → c₂ ∈ l → c₁ ≠ c₂ →
      p c₁ = true → p c₂ = true → 2 ≤ l.countP p := by
  intro l
  induction l with
  | nil => intro c₁ c₂ h; simp at h
  | cons a t ih =>
    intro c₁ c₂ h₁ h₂ hne hp₁ hp₂
    rcases List.mem_cons.mp h₁ with ha₁ | ha₁
    · rcases List.mem_cons.mp h₂ with ha₂ | ha₂
      · exact absurd (ha₁.trans ha₂.symm) hne
      · have : 1 ≤ t.countP p :=
          List.countP_pos_iff.mpr ⟨c₂, ha₂, by simpa using hp₂⟩
        rw [List.countP_cons, if_pos (by rw [← ha₁]; exact hp₁)]
        omega
    · rcases List.mem_cons.mp h₂ with ha₂ | ha₂
      · have : 1 ≤ t.countP p :=
          List.countP_pos_iff.mpr ⟨c₁, ha₁, by simpa using hp₁⟩
        rw [List.countP_cons, if_pos (by rw [← ha₂]; exact hp₂)]
        omega
      · have := ih c₁ c₂ ha₁ ha₂ hne hp₁ hp₂
        rw [List.countP_cons]
        omega

theorem countP_filter_not (p : PriceChild → Bool) (l : List PriceChild) :
    (l.filter (fun d => !p d)).countP p = 0 := by
  rw [List.countP_eq_zero]
  intro c hc
  have := (List.mem_filter.mp hc).2
  simp only [Bool.not_eq_true'] at this
  simp [this]

theorem dedupKeepFirst_eq_self (p : PriceChild → Bool) :
    ∀ (l : List PriceChild), l.countP p ≤ 1 → dedupKeepFirst p l = l := by
  intro l
  induction l with
  | nil => intro _; rfl
  | cons a t ih =>
    intro h
    rw [List.countP_cons] at h
    by_cases hp : p a = true
    · have ht : t.countP p = 0 := by
        rw [if_pos hp] at h
        omega
      rw [dedupKeepFirst, if_pos hp]
      have : t.filter (fun d => !p d) = t := by
        rw [List.filter_eq_self]
        intro c hc
        have : ¬(p c = true) := by
          intro hpc
          have : 1 ≤ t.countP p := List.countP_pos_iff.mpr ⟨c, hc, by simpa using hpc⟩
          omega
        simpa using this
      rw [this]
    · rw [dedupKeepFirst, if_neg hp, ih (by omega)]

theorem mem_dedupKeepFirst (p : PriceChild → Bool) :
    ∀ (l : List PriceChild) (c : PriceChild), c ∈ dedupKeepFirst p l → c ∈ l := by
  intro l
  induction l with
  | nil => intro c h; simp [dedupKeepFirst] at h
  | cons a t ih =>
    intro c h
    rw [dedupKeepFirst] at h
    by_cases hp : p a = true
    · rw [if_pos hp] at h
      rcases List.mem_cons.mp h with h1 | h1
      · exact List.mem_cons.mpr (Or.inl h1)
      · exact List.mem_cons.mpr (Or.inr (List.mem_filter.mp h1).1)
    · rw [if_neg hp] at h
      rcases List.mem_cons.mp h with h1 | h1
      · exact List.mem_cons.mpr (Or.inl h1)
      · exact List.mem_cons.mpr (Or.inr (ih c h1))

theorem findIdx?_start_some (p : PriceChild → Bool) (d : PriceChild) :
    ∀ (l : List PriceChild) (s i : Nat), List.findIdx? p l s = some i →
      ∃ j, i = s + j ∧ j < l.length ∧ p (l.getD j d) = true := by
  intro l
  induction l with
  | nil => intro s i h; simp [List.findIdx?] at h
  | cons a t ih =>
    intro s i h
    rw [List.findIdx?_cons] at h
    by_cases hp : p a = true
    · rw [if_pos hp] at h
      refine ⟨0, ?_, by simp, by simpa using hp⟩
      cases h
      omega
    · rw [if_neg hp] at h
      obtain ⟨j, hij, hlt, hpj⟩ := ih (s + 1) i h
      exact ⟨j + 1, by omega, by simpa using hlt, by simpa using hpj⟩

theorem findIdx?_bound_true (p : PriceChild → Bool) (d : PriceChild)
    (l : List PriceChild) (i : Nat) (h : l.findIdx? p = some i) :
    i < l.length ∧ p (l.getD i d) = true := by
  obtain ⟨j, hij, hlt, hpj⟩ := findIdx?_start_some p d l 0 i h
  have : i = j := by omega
  subst this
  exact ⟨hlt, hpj⟩

theorem findIdx?_start_none (p : PriceChild → Bool) :
    ∀ (l : List PriceChild) (s : Nat), List.findIdx? p l s = none →
      ∀ c ∈ l, p c = false := by
  intro l
  induction l with
  | nil => intro s _ c h; simp at h
  | cons a t ih =>
    intro s h c hc
    rw [List.findIdx?_cons] at h
    by_cases hp : p a = true
    · rw [if_pos hp] at h; exact Option.noConfusion h
    · rw [if_neg hp] at h
      rcases List.mem_cons.mp hc with h1 | h1
      · rw [h1]; simpa using hp
      · exact ih (s + 1) h c h1

theorem findIdx?_none_all (p : PriceChild → Bool) (l : List PriceChild)
    (h : l.findIdx? p = none) : ∀ c ∈ l, p c = false :=
  findIdx?_start_none p l 0 h

/-! Class-list facts used by the span updates. -/

theorem contains_classListRemove (cs rm : List String) (x : String) :
    (classListRemove cs rm).contains x
      = (cs.contains x && !rm.contains x) := by
  induction cs with
  | nil => simp [classListRemove]
  | cons a t ih =>
    by_cases h : rm.contains a = true
    · by_cases hx : a = x
      · subst hx
        simp [classListRemove, h]
      · simp only [classListRemove] at ih
        simp [classListRemove, h, hx, ih, Ne.symm hx]
    · by_cases hx : a = x
      · subst hx
        simp [classListRemove, h]
      · simp only [classListRemove] at ih
        simp [classListRemove, h, hx, ih, Ne.symm hx]

theorem classListAdd_not_mem (cs : List String) (c : String)
    (h : cs.contains c = false) : classListAdd cs c = cs ++ [c] := by
  rw [classListAdd, if_neg (by simpa using h)]

theorem contains_append_single (cs : List String) (c x : String) :
    (cs ++ [c]).contains x = (cs.contains x || x == c) := by
  by_cases h : x = c
  · subst h; simp
  · simp [h, Ne.symm h]

/-- The element produced by the integer-span update (found branch). -/
theorem fixInt_spec (tI iv : String)
    (hT : tI = "price-int-2" ∨ tI = "price-int-3")
    (c : PriceChild) (hInt : c.isIntSpan = true)
    (hLeg : c.hasClass "decimal" = false) (hDec : c.isDecSpan = false) :
    ((c.switchClass ["price-int-2", "price-int-3"] tI).withText iv).isIntSpan = true ∧
    ((c.switchClass ["price-int-2", "price-int-3"] tI).withText iv).hasClass tI = true ∧
    ((c.switchClass ["price-int-2", "price-int-3"] tI).withText iv).textContent = iv ∧
    ((c.switchClass ["price-int-2", "price-int-3"] tI).withText iv).hasClass "decimal"
      = false ∧
    ((c.switchClass ["price-int-2", "price-int-3"] tI).withText iv).isDecSpan = false ∧
    ((((c.switchClass ["price-int-2", "price-int-3"] tI).withText
        iv).switchClass ["price-int-2", "price-int-3"] tI).withText iv)
      = (c.switchClass ["price-int-2", "price-int-3"] tI).withText iv := by
  match c, hInt with
  | .elemNode cs t, hInt =>
    simp only [PriceChild.switchClass, PriceChild.withText]
    have hgT : (classListRemove cs ["price-int-2", "price-int-3"]).contains tI
        = false := by
      rw [contains_classListRemove]
      rcases hT with h | h <;> subst h <;> simp
    rw [classListAdd_not_mem _ _ hgT]
    have hadd : ∀ x : String,
        ((classListRemove cs ["price-int-2", "price-int-3"]) ++ [tI]).contains x
          = ((classListRemove cs ["price-int-2", "price-int-3"]).contains x
              || x == tI) :=
      fun x => contains_append_single _ _ _
    simp only [PriceChild.isIntSpan, PriceChild.isDecSpan, PriceChild.hasClass] at *
    refine ⟨?_, ?_, rfl, ?_, ?_, ?_⟩
    · rcases hT with h | h <;> subst h <;> simp [hadd]
    · simp [hadd]
    · rw [hadd, contains_classListRemove]
      simp only [hLeg]
      rcases hT with h | h <;> subst h <;> simp
    · rw [Bool.or_eq_false_iff] at hDec
      rw [Bool.or_eq_false_iff]
      have hd1 : "price-decimal-2" ∉ cs := by simpa using hDec.1
      have hd2 : "price-decimal-3" ∉ cs := by simpa using hDec.2
      constructor <;> rw [hadd, contains_classListRemove] <;>
        rcases hT with h | h <;> subst h <;> simp [hd1, hd2]
    · rw [classListRemove, List.filter_append]
      have h1 : List.filter
          (fun c => !(["price-int-2", "price-int-3"] : List String).contains c)
          [tI] = [] := by
        rcases hT with h | h <;> subst h <;> rfl
      have h2 : List.filter
          (fun c => !(["price-int-2", "price-int-3"] : List String).contains c)
          (classListRemove cs ["price-int-2", "price-int-3"])
          = classListRemove cs ["price-int-2", "price-int-3"] := by
        rw [List.filter_eq_self]
        intro x hx
        have := (List.mem_filter.mp hx).2
        simpa [classListRemove] using this
      rw [h1, h2, List.append_nil]
      rw [show classListRemove cs ["price-int-2", "price-int-3"]
            = List.filter (fun c => !(["price-int-2", "price-int-3"] :
                List String).contains c) cs from rfl] at hgT ⊢
      rw [classListAdd_not_mem _ _ hgT]

/-- The element produced by the decimal-span update (found branch). -/
theorem fixDec_spec (tD fdv : String)
    (hT : tD = "price-decimal-2" ∨ tD = "price-decimal-3")
    (c : PriceChild) (hDec : c.isDecSpan = true) (hInt : c.isIntSpan = false) :
    ((c.switchClass ["price-decimal-2", "price-decimal-3"] tD).withText fdv).isDecSpan
      = true ∧
    ((c.switchClass ["price-decimal-2", "price-decimal-3"] tD).withText fdv).hasClass tD
      = true ∧
    ((c.switchClass ["price-decimal-2", "price-decimal-3"] tD).withText fdv).textContent
      = fdv ∧
    ((c.switchClass ["price-decimal-2", "price-decimal-3"] tD).withText fdv).isIntSpan
      = false ∧
    ((c.switchClass ["price-decimal-2", "price-decimal-3"] tD).withText
        fdv).cleanupRemovable = false ∧
    ((((c.switchClass ["price-decimal-2", "price-decimal-3"] tD).withText
        fdv).switchClass ["price-decimal-2", "price-decimal-3"] tD).withText fdv)
      = (c.switchClass ["price-decimal-2", "price-decimal-3"] tD).withText fdv := by
  match c, hDec with
  | .elemNode cs t, hDec =>
    simp only [PriceChild.switchClass, PriceChild.withText]
    have hgT : (classListRemove cs ["price-decimal-2", "price-decimal-3"]).contains tD
        = false := by
      rw [contains_classListRemove]
      rcases hT with h | h <;> subst h <;> simp
    rw [classListAdd_not_mem _ _ hgT]
    have hadd : ∀ x : String,
        ((classListRemove cs ["price-decimal-2", "price-decimal-3"]) ++ [tD]).contains x
          = ((classListRemove cs ["price-decimal-2", "price-decimal-3"]).contains x
              || x == tD) :=
      fun x => contains_append_single _ _ _
    simp only [PriceChild.isIntSpan, PriceChild.isDecSpan, PriceChild.hasClass,
      PriceChild.cleanupRemovable] at *
    refine ⟨?_, ?_, rfl, ?_, ?_, ?_⟩
    · rcases hT with h | h <;> subst h <;> simp [hadd]
    · simp [hadd]
    · rw [Bool.or_eq_false_iff] at hInt
      rw [Bool.or_eq_false_iff]
      have hi1 : "price-int-2" ∉ cs := by simpa using hInt.1
      have hi2 : "price-int-3" ∉ cs := by simpa using hInt.2
      constructor <;> rw [hadd, contains_classListRemove] <;>
        rcases hT with h | h <;> subst h <;> simp [hi1, hi2]
    · have : ((classListRemove cs ["price-decimal-2", "price-decimal-3"])
          ++ [tD]).contains tD = true := by simp [hadd]
      rcases hT with h | h <;> subst h <;> simp_all
    · rw [classListRemove, List.filter_append]
      have h1 : List.filter
          (fun c => !(["price-decimal-2", "price-decimal-3"] : List String).contains c)
          [tD] = [] := by
        rcases hT with h | h <;> subst h <;> rfl
      have h2 : List.filter
          (fun c => !(["price-decimal-2", "price-decimal-3"] : List String).contains c)
          (classListRemove cs ["price-decimal-2", "price-decimal-3"])
          = classListRemove cs ["price-decimal-2", "price-decimal-3"] := by
        rw [List.filter_eq_self]
        intro x hx
        have := (List.mem_filter.mp hx).2
        simpa [classListRemove] using this
      rw [h1, h2, List.append_nil]
      rw [show classListRemove cs ["price-decimal-2", "price-decimal-3"]
            = List.filter (fun c => !(["price-decimal-2", "price-decimal-3"] :
                List String).contains c) cs from rfl] at hgT ⊢
      rw [classListAdd_not_mem _ _ hgT]

theorem orElse_cases {α : Type} (o₁ o₂ : Option α) (i : α)
    (h : (o₁.orElse fun _ => o₂) = some i) :
    o₁ = some i ∨ (o₁ = none ∧ o₂ = some i) := by
  cases o₁ <;> simp [Option.orElse] at h ⊢ <;> simp [h]

theorem orElse_none {α : Type} (o₁ o₂ : Option α)
    (h : (o₁.orElse fun _ => o₂) = none) : o₁ = none ∧ o₂ = none := by
  cases o₁ <;> simp [Option.orElse] at h ⊢
  exact h

theorem findIdxClass_some (l : List PriceChild) (cls : String) (i : Nat)
    (h : findIdxClass l cls = some i) :
    i < l.length ∧ (l.getD i (.textNode "")).hasClass cls = true :=
  findIdx?_bound_true _ (.textNode "") l i h

theorem findIdxClass_none (l : List PriceChild) (cls : String)
    (h : findIdxClass l cls = none) : ∀ c ∈ l, c.hasClass cls = false :=
  findIdx?_none_all _ l h

/-- The integer-span update: exactly one integer sub-element remains, it
carries the target class and the written text and is a fixed point of the
update; decimal sub-elements are untouched. -/
theorem updateIntSpan_spec (children : List PriceChild) (tI iv : String)
    (hT : tI = "price-int-2" ∨ tI = "price-int-3")
    (hcount : countIntSpans children ≤ 1)
    (hexcl : ∀ c ∈ children, ¬(c.isIntSpan = true ∧ c.isDecSpan = true))
    (hleg : ∀ c ∈ children, c.isIntSpan = true → c.hasClass "decimal" = false) :
    countIntSpans (updateIntSpan children tI iv).1 = 1 ∧
    countDecSpans (updateIntSpan children tI iv).1 = countDecSpans children ∧
    (∀ c ∈ (updateIntSpan children tI iv).1, c.isIntSpan = true →
      c.textContent = iv ∧ c.hasClass tI = true ∧ c.hasClass "decimal" = false ∧
      c.isDecSpan = false ∧
      (c.switchClass ["price-int-2", "price-int-3"] tI).withText iv = c) ∧
    (∀ c ∈ (updateIntSpan children tI iv).1, c.isDecSpan = true → c ∈ children) := by
  cases hf : (findIdxClass children "price-int-2").orElse
      (fun _ => findIdxClass children "price-int-3") with
  | some i =>
    have heq : updateIntSpan children tI iv
        = (setAt children i (((children.getD i (.textNode "")).switchClass
            ["price-int-2", "price-int-3"] tI).withText iv), i) := by
      simp only [updateIntSpan, hf]
    rw [heq]
    have hold : i < children.length
        ∧ (children.getD i (.textNode "")).isIntSpan = true := by
      rcases orElse_cases _ _ _ hf with h2 | ⟨_, h3⟩
      · obtain ⟨ha, hb⟩ := findIdxClass_some _ _ _ h2
        exact ⟨ha, by unfold PriceChild.isIntSpan; rw [hb, Bool.true_or]⟩
      · obtain ⟨ha, hb⟩ := findIdxClass_some _ _ _ h3
        exact ⟨ha, by unfold PriceChild.isIntSpan; rw [hb, Bool.or_true]⟩
    have hmemold : children.getD i (.textNode "") ∈ children :=
      getD_mem _ children i hold.1
    have holddec : (children.getD i (.textNode "")).isDecSpan = false := by
      cases hd : (children.getD i (.textNode "")).isDecSpan
      · rfl
      · exact absurd ⟨hold.2, hd⟩ (hexcl _ hmemold)
    have holdleg := hleg _ hmemold hold.2
    obtain ⟨f1, f2, f3, f4, f5, f6⟩ :=
      fixInt_spec tI iv hT (children.getD i (.textNode "")) hold.2 holdleg holddec
    have hnew_mem :
        (((children.getD i (.textNode "")).switchClass
          ["price-int-2", "price-int-3"] tI).withText iv)
        ∈ setAt children i (((children.getD i (.textNode "")).switchClass
          ["price-int-2", "price-int-3"] tI).withText iv) :=
      self_mem_setAt _ children i hold.1
    have hcnt : countIntSpans children = 1 :=
      le_antisymm hcount
        (List.countP_pos_iff.mpr ⟨_, hmemold, by simpa using hold.2⟩)
    have hcnt1 : countIntSpans (setAt children i
        (((children.getD i (.textNode "")).switchClass
          ["price-int-2", "price-int-3"] tI).withText iv)) = 1 := by
      rw [countIntSpans,
        countP_setAt_same _ _ (.textNode "") children i hold.1 (by rw [hold.2, f1])]
      exact hcnt
    refine ⟨hcnt1, ?_, ?_, ?_⟩
    · rw [countDecSpans,
        countP_setAt_same _ _ (.textNode "") children i hold.1 (by rw [holddec, f5])]
      rfl
    · intro c hc hcInt
      by_cases hceq : c = ((children.getD i (.textNode "")).switchClass
          ["price-int-2", "price-int-3"] tI).withText iv
      · subst hceq
        exact ⟨f3, f2, f4, f5, f6⟩
      · have h2 := two_mem_le_countP (fun c => c.isIntSpan) _ c _ hc hnew_mem hceq
          hcInt f1
        rw [show (setAt children i (((children.getD i (.textNode "")).switchClass
            ["price-int-2", "price-int-3"] tI).withText iv)).countP
              (fun c => c.isIntSpan) = 1 from hcnt1] at h2
        omega
    · intro c hc hcdec
      rcases mem_setAt _ c children i hc with hch | hch
      · rw [hch, f5] at hcdec
        exact absurd hcdec (by simp)
      · exact hch
  | none =>
    have heq : updateIntSpan children tI iv
        = (insertAt children (intInsertPos children) (.elemNode [tI] iv),
            intInsertPos children) := by
      simp only [updateIntSpan, hf]
    rw [heq]
    obtain ⟨h2, h3⟩ := orElse_none _ _ hf
    have hnone : ∀ c ∈ children, c.isIntSpan = false := by
      intro c hc
      have ha2 := findIdxClass_none _ _ h2 c hc
      have ha3 := findIdxClass_none _ _ h3 c hc
      simp [PriceChild.isIntSpan, ha2, ha3]
    have hcnt0 : countIntSpans children = 0 :=
      List.countP_eq_zero.mpr (fun c hc => by simp [hnone c hc])
    have hnewint : (PriceChild.elemNode [tI] iv).isIntSpan = true := by
      rcases hT with h | h <;> subst h <;> rfl
    have hnewdec : (PriceChild.elemNode [tI] iv).isDecSpan = false := by
      rcases hT with h | h <;> subst h <;> rfl
    refine ⟨?_, ?_, ?_, ?_⟩
    · rw [countIntSpans, countP_insertAt, if_pos hnewint, ← countIntSpans, hcnt0]
    · rw [countDecSpans, countP_insertAt, if_neg (by simp [hnewdec]), ← countDecSpans]
      omega
    · intro c hc hcInt
      rcases mem_insertAt _ c children _ hc with hch | hch
      · subst hch
        refine ⟨rfl, ?_, ?_, hnewdec, ?_⟩
        · rcases hT with h | h <;> subst h <;> rfl
        · rcases hT with h | h <;> subst h <;> rfl
        · rcases hT with h | h <;> subst h <;> rfl
      · rw [hnone c hch] at hcInt
        exact absurd hcInt (by simp)
    · intro c hc hcdec
      rcases mem_insertAt _ c children _ hc with hch | hch
      · rw [hch, hnewdec] at hcdec
        exact absurd hcdec (by simp)
      · exact hch

/-- The decimal-span update: exactly one decimal sub-element remains, it
carries the target class, the separator-normalized text, and is a fixed
point of the update and of the cleanup; integer sub-elements are
untouched. -/
theorem updateDecSpan_spec (children₁ : List PriceChild) (intIdx : Nat)
    (tD fdv : String)
    (hT : tD = "price-decimal-2" ∨ tD = "price-decimal-3")
    (hcount : countDecSpans children₁ ≤ 1)
    (hdecint : ∀ c ∈ children₁, c.isDecSpan = true → c.isIntSpan = false) :
    countDecSpans (updateDecSpan children₁ intIdx tD fdv) = 1 ∧
    countIntSpans (updateDecSpan children₁ intIdx tD fdv)
      = countIntSpans children₁ ∧
    (∀ c ∈ updateDecSpan children₁ intIdx tD fdv, c.isDecSpan = true →
      c.textContent = fdv ∧ c.hasClass tD = true ∧ c.isIntSpan = false ∧
      c.cleanupRemovable = false ∧
      (c.switchClass ["price-decimal-2", "price-decimal-3"] tD).withText fdv = c) ∧
    (∀ c ∈ updateDecSpan children₁ intIdx tD fdv, c.isIntSpan = true →
      c ∈ children₁) := by
  cases hf : (findIdxClass children₁ "price-decimal-2").orElse
      (fun _ => findIdxClass children₁ "price-decimal-3") with
  | some i =>
    have heq : updateDecSpan children₁ intIdx tD fdv
        = setAt children₁ i (((children₁.getD i (.textNode "")).switchClass
            ["price-decimal-2", "price-decimal-3"] tD).withText fdv) := by
      simp only [updateDecSpan, hf]
    rw [heq]
    have hold : i < children₁.length
        ∧ (children₁.getD i (.textNode "")).isDecSpan = true := by
      rcases orElse_cases _ _ _ hf with h2 | ⟨_, h3⟩
      · obtain ⟨ha, hb⟩ := findIdxClass_some _ _ _ h2
        exact ⟨ha, by unfold PriceChild.isDecSpan; rw [hb, Bool.true_or]⟩
      · obtain ⟨ha, hb⟩ := findIdxClass_some _ _ _ h3
        exact ⟨ha, by unfold PriceChild.isDecSpan; rw [hb, Bool.or_true]⟩
    have hmemold : children₁.getD i (.textNode "") ∈ children₁ :=
      getD_mem _ children₁ i hold.1
    have holdint : (children₁.getD i (.textNode "")).isIntSpan = false :=
      hdecint _ hmemold hold.2
    obtain ⟨f1, f2, f3, f4, f5, f6⟩ :=
      fixDec_spec tD fdv hT (children₁.getD i (.textNode "")) hold.2 holdint
    have hnew_mem :
        (((children₁.getD i (.textNode "")).switchClass
          ["price-decimal-2", "price-decimal-3"] tD).withText fdv)
        ∈ setAt children₁ i (((children₁.getD i (.textNode "")).switchClass
          ["price-decimal-2", "price-decimal-3"] tD).withText fdv) :=
      self_mem_setAt _ children₁ i hold.1
    have hcnt : countDecSpans children₁ = 1 :=
      le_antisymm hcount
        (List.countP_pos_iff.mpr ⟨_, hmemold, by simpa using hold.2⟩)
    have hcnt1 : countDecSpans (setAt children₁ i
        (((children₁.getD i (.textNode "")).switchClass
          ["price-decimal-2", "price-decimal-3"] tD).withText fdv)) = 1 := by
      rw [countDecSpans,
        countP_setAt_same _ _ (.textNode "") children₁ i hold.1 (by rw [hold.2, f1])]
      exact hcnt
    refine ⟨hcnt1, ?_, ?_, ?_⟩
    · rw [countIntSpans,
        countP_setAt_same _ _ (.textNode "") children₁ i hold.1 (by rw [holdint, f4])]
      rfl
    · intro c hc hcDec
      by_cases hceq : c = ((children₁.getD i (.textNode "")).switchClass
          ["price-decimal-2", "price-decimal-3"] tD).withText fdv
      · subst hceq
        exact ⟨f3, f2, f4, f5, f6⟩
      · have h2 := two_mem_le_countP (fun c => c.isDecSpan) _ c _ hc hnew_mem hceq
          hcDec f1
        rw [show (setAt children₁ i (((children₁.getD i
            (.textNode "")).switchClass ["price-decimal-2", "price-decimal-3"]
              tD).withText fdv)).countP (fun c => c.isDecSpan) = 1 from hcnt1] at h2
        omega
    · intro c hc hcInt
      rcases mem_setAt _ c children₁ i hc with hch | hch
      · rw [hch, f4] at hcInt
        exact absurd hcInt (by simp)
      · exact hch
  | none =>
    have heq : updateDecSpan children₁ intIdx tD fdv
        = insertAt children₁ (intIdx + 1) (.elemNode [tD] fdv) := by
      simp only [updateDecSpan, hf]
    rw [heq]
    obtain ⟨h2, h3⟩ := orElse_none _ _ hf
    have hnone : ∀ c ∈ children₁, c.isDecSpan = false := by
      intro c hc
      have ha2 := findIdxClass_none _ _ h2 c hc
      have ha3 := findIdxClass_none _ _ h3 c hc
      simp [PriceChild.isDecSpan, ha2, ha3]
    have hcnt0 : countDecSpans children₁ = 0 :=
      List.countP_eq_zero.mpr (fun c hc => by simp [hnone c hc])
    have hnewdec : (PriceChild.elemNode [tD] fdv).isDecSpan = true := by
      rcases hT with h | h <;> subst h <;> rfl
    have hnewint : (PriceChild.elemNode [tD] fdv).isIntSpan = false := by
      rcases hT with h | h <;> subst h <;> rfl
    refine ⟨?_, ?_, ?_, ?_⟩
    · rw [countDecSpans, countP_insertAt, if_pos hnewdec, ← countDecSpans, hcnt0]
    · rw [countIntSpans, countP_insertAt, if_neg (by simp [hnewint]), ← countIntSpans]
      omega
    · intro c hc hcDec
      rcases mem_insertAt _ c children₁ _ hc with hch | hch
      · subst hch
        refine ⟨rfl, ?_, hnewint, ?_, ?_⟩
        · rcases hT with h | h <;> subst h <;> rfl
        · rcases hT with h | h <;> subst h <;> rfl
        · rcases hT with h | h <;> subst h <;> rfl
      · rw [hnone c hch] at hcDec
        exact absurd hcDec (by simp)
    · intro c hc hcInt
      rcases mem_insertAt _ c children₁ _ hc with hch | hch
      · rw [hch, hnewint] at hcInt
        exact absurd hcInt (by simp)
      · exact hch

theorem cleanup_mem (l : List PriceChild) (c : PriceChild)
    (h : c ∈ cleanupAfterSign l) : c ∈ l := by
  rw [cleanupAfterSign] at h
  cases hs : findIdxClass l "sign" with
  | none => rwa [hs] at h
  | some s =>
    rw [hs] at h
    rcases List.mem_append.mp h with h1 | h1
    · exact List.mem_of_mem_take h1
    · exact List.mem_of_mem_drop (List.mem_filter.mp h1).1

theorem cleanup_mem_keep (l : List PriceChild) (c : PriceChild) (hc : c ∈ l)
    (h : c.cleanupRemovable = false) : c ∈ cleanupAfterSign l := by
  rw [cleanupAfterSign]
  cases hs : findIdxClass l "sign" with
  | none => exact hc
  | some s =>
    rw [← List.take_append_drop (s + 1) l] at hc
    rcases List.mem_append.mp hc with h1 | h1
    · exact List.mem_append.mpr (Or.inl h1)
    · exact List.mem_append.mpr (Or.inr (List.mem_filter.mpr ⟨h1, by simp [h]⟩))

theorem cleanup_countP_le (p : PriceChild → Bool) (l : List PriceChild) :
    (cleanupAfterSign l).countP p ≤ l.countP p := by
  rw [cleanupAfterSign]
  cases hs : findIdxClass l "sign" with
  | none => exact le_refl _
  | some s =>
    rw [List.countP_append]
    have h1 : ((l.drop (s + 1)).filter (fun c => !c.cleanupRemovable)).countP p
        ≤ (l.drop (s + 1)).countP p :=
      (List.filter_sublist _).countP_le p
    have h2 : (l.take (s + 1)).countP p + (l.drop (s + 1)).countP p = l.countP p := by
      rw [← List.countP_append, List.take_append_drop]
    omega

theorem findIdx?_append_some (p : PriceChild → Bool) :
    ∀ (a b : List PriceChild) (s i : Nat), List.findIdx? p a s = some i →
      List.findIdx? p (a ++ b) s = some i := by
  intro a
  induction a with
  | nil => intro b s i h; simp [List.findIdx?] at h
  | cons x t ih =>
    intro b s i h
    rw [List.findIdx?_cons] at h
    rw [List.cons_append, List.findIdx?_cons]
    by_cases hp : p x = true
    · rwa [if_pos hp] at h ⊢
    · rw [if_neg hp] at h ⊢
      exact ih b (s + 1) i h

theorem findIdx?_take (p : PriceChild → Bool) :
    ∀ (l : List PriceChild) (s j : Nat),
      List.findIdx? p l s = some (s + j) →
      List.findIdx? p (l.take (j + 1)) s = some (s + j) := by
  intro l
  induction l with
  | nil => intro s j h; simp [List.findIdx?] at h
  | cons x t ih =>
    intro s j h
    rw [List.findIdx?_cons] at h
    by_cases hp : p x = true
    · rw [if_pos hp] at h
      have hj : j = 0 := by
        have := Option.some.inj h
        omega
      subst hj
      rw [List.take_succ_cons, List.findIdx?_cons, if_pos hp]
      exact h
    · rw [if_neg hp] at h
      obtain ⟨j', hj', _, _⟩ := findIdx?_start_some p (.textNode "") t (s + 1) (s + j) h
      have hjj : j = j' + 1 := by omega
      subst hjj
      have h2 : List.findIdx? p (t.take (j' + 1)) (s + 1) = some ((s + 1) + j') := by
        apply ih
        rw [show (s + 1) + j' = s + (j' + 1) by omega]
        exact h
      rw [List.take_succ_cons, List.findIdx?_cons, if_neg hp, h2]
      congr 1
      omega

/-- The post-`sign` cleanup is idempotent. -/
theorem cleanup_idem (l : List PriceChild) :
    cleanupAfterSign (cleanupAfterSign l) = cleanupAfterSign l := by
  cases hs : findIdxClass l "sign" with
  | none =>
    have h1 : cleanupAfterSign l = l := by
      rw [cleanupAfterSign, hs]
    rw [h1, h1]
  | some s =>
    have hsl := findIdxClass_some _ _ _ hs
    have h1 : cleanupAfterSign l
        = l.take (s + 1) ++ (l.drop (s + 1)).filter (fun c => !c.cleanupRemovable) := by
      rw [cleanupAfterSign, hs]
    have htake : List.findIdx? (fun n => n.hasClass "sign") (l.take (s + 1)) 0
        = some s := by
      have h0 : List.findIdx? (fun n => n.hasClass "sign") l 0 = some (0 + s) := by
        rw [Nat.zero_add]
        exact hs
      have := findIdx?_take (fun n => n.hasClass "sign") l 0 s h0
      rwa [Nat.zero_add] at this
    have happ : findIdxClass (l.take (s + 1)
        ++ (l.drop (s + 1)).filter (fun c => !c.cleanupRemovable)) "sign"
        = some s :=
      findIdx?_append_some _ _ _ 0 s htake
    have hlen : (l.take (s + 1)).length = s + 1 := by
      rw [List.length_take]
      omega
    have h2 : cleanupAfterSign (l.take (s + 1)
        ++ (l.drop (s + 1)).filter (fun c => !c.cleanupRemovable))
        = l.take (s + 1)
          ++ ((l.drop (s + 1)).filter (fun c => !c.cleanupRemovable)).filter
              (fun c => !c.cleanupRemovable) := by
      simp only [cleanupAfterSign, happ]
      rw [List.take_left' hlen, List.drop_left' hlen]
    have h3 : ((l.drop (s + 1)).filter (fun c => !c.cleanupRemovable)).filter
        (fun c => !c.cleanupRemovable)
        = (l.drop (s + 1)).filter (fun c => !c.cleanupRemovable) := by
      rw [List.filter_filter]
      apply List.filter_congr
      intro a _
      exact Bool.and_self _
    rw [h1, h2, h3]

/-- An integer sub-element without the legacy class never matches the
cleanup predicate. -/
theorem int_not_removable (c : PriceChild) (hInt : c.isIntSpan = true)
    (hLeg : c.hasClass "decimal" = false) : c.cleanupRemovable = false := by
  match c, hInt with
  | .elemNode cs t, _ =>
    simp only [PriceChild.hasClass] at hLeg
    have h : "decimal" ∉ cs := by simpa using hLeg
    simp [PriceChild.cleanupRemovable, h]

/-- A class-switch round trip on the element's own class list is the
identity once the target class sits at the end. -/
theorem classListAdd_remove_fix (cs rm : List String) (c : String)
    (hc : rm.contains c = true) :
    classListAdd (classListRemove (classListAdd (classListRemove cs rm) c) rm) c
      = classListAdd (classListRemove cs rm) c := by
  have hg : (classListRemove cs rm).contains c = false := by
    rw [contains_classListRemove, hc]
    simp
  rw [classListAdd_not_mem _ _ hg]
  have h1 : classListRemove (classListRemove cs rm ++ [c]) rm
      = classListRemove cs rm := by
    rw [show classListRemove (classListRemove cs rm ++ [c]) rm
        = classListRemove (classListRemove cs rm) rm ++ classListRemove [c] rm from
        List.filter_append _ _]
    have h2 : classListRemove (classListRemove cs rm) rm = classListRemove cs rm := by
      rw [show classListRemove (classListRemove cs rm) rm
          = List.filter (fun x => !rm.contains x) (classListRemove cs rm) from rfl]
      apply List.filter_eq_self.mpr
      intro a ha
      exact (List.mem_filter.mp ha).2
    have h3 : classListRemove [c] rm = [] := by
      simp [classListRemove, hc]
      simpa using hc
    rw [h2, h3, List.append_nil]
  rw [h1, classListAdd_not_mem _ _ hg]

/-- Full `updatePriceFields` on a well-formed price slot: exactly one
integer and one decimal sub-element remain, each carrying the target class
selected by the integer digit count and the written text (the decimal text
separator-normalized), both fixed points of a second run's span update; the
result is also a fixed point of the post-`sign` cleanup, and its class list
a fixed point of the base-class switch. -/
theorem updatePriceFields_spec (p : PriceEl) (iv dv : String)
    (hinv : PriceSlotInv p) :
    countIntSpans (updatePriceFields p iv dv).children = 1 ∧
    countDecSpans (updatePriceFields p iv dv).children = 1 ∧
    (∀ c ∈ (updatePriceFields p iv dv).children, c.isIntSpan = true →
      c.textContent = iv ∧
      c.hasClass (if iv.length ≤ 2 then "price-int-2" else "price-int-3") = true ∧
      c.hasClass "decimal" = false ∧ c.isDecSpan = false ∧
      (c.switchClass ["price-int-2", "price-int-3"]
        (if iv.length ≤ 2 then "price-int-2" else "price-int-3")).withText iv = c) ∧
    (∀ c ∈ (updatePriceFields p iv dv).children, c.isDecSpan = true →
      c.textContent = (if strStartsWith dv "." then dv else "." ++ dv) ∧
      c.hasClass (if iv.length ≤ 2 then "price-decimal-2" else "price-decimal-3")
        = true ∧
      c.isIntSpan = false ∧ c.cleanupRemovable = false ∧
      (c.switchClass ["price-decimal-2", "price-decimal-3"]
        (if iv.length ≤ 2 then "price-decimal-2" else "price-decimal-3")).withText
          (if strStartsWith dv "." then dv else "." ++ dv) = c) ∧
    cleanupAfterSign (updatePriceFields p iv dv).children
      = (updatePriceFields p iv dv).children ∧
    classListAdd (classListRemove (updatePriceFields p iv dv).classes
      ["price--2digits", "price--3digits"])
      (if iv.length ≤ 2 then "price--2digits" else "price--3digits")
      = (updatePriceFields p iv dv).classes := by
  obtain ⟨h1, h2, h3, h4⟩ := hinv
  set tI := (if iv.length ≤ 2 then "price-int-2" else "price-int-3") with htIdef
  set tD := (if iv.length ≤ 2 then "price-decimal-2" else "price-decimal-3")
    with htDdef
  set tB := (if iv.length ≤ 2 then "price--2digits" else "price--3digits")
    with htBdef
  set fdv := (if strStartsWith dv "." then dv else "." ++ dv) with hfdvdef
  have hT : tI = "price-int-2" ∨ tI = "price-int-3" := by
    rw [htIdef]
    by_cases hd : iv.length ≤ 2
    · exact Or.inl (if_pos hd)
    · exact Or.inr (if_neg hd)
  have hTD : tD = "price-decimal-2" ∨ tD = "price-decimal-3" := by
    rw [htDdef]
    by_cases hd : iv.length ≤ 2
    · exact Or.inl (if_pos hd)
    · exact Or.inr (if_neg hd)
  obtain ⟨a1, a2, a3, a4⟩ := updateIntSpan_spec p.children tI iv hT h1 h3 h4
  set c1 := (updateIntSpan p.children tI iv).1 with hc1def
  have hcnt1 : countDecSpans c1 ≤ 1 := by
    rw [a2]
    exact h2
  have hdecint1 : ∀ c ∈ c1, c.isDecSpan = true → c.isIntSpan = false := by
    intro c hc hdec
    have hcp := a4 c hc hdec
    cases hint : c.isIntSpan
    · rfl
    · exact absurd ⟨hint, hdec⟩ (h3 c hcp)
  obtain ⟨b1, b2, b3, b4⟩ := updateDecSpan_spec c1 (updateIntSpan p.children tI iv).2
    tD fdv hTD hcnt1 hdecint1
  set c2 := updateDecSpan c1 (updateIntSpan p.children tI iv).2 tD fdv with hc2def
  have a3' : ∀ c ∈ c2, c.isIntSpan = true →
      c.textContent = iv ∧ c.hasClass tI = true ∧ c.hasClass "decimal" = false ∧
      c.isDecSpan = false ∧
      (c.switchClass ["price-int-2", "price-int-3"] tI).withText iv = c := by
    intro c hc hint
    exact a3 c (b4 c hc hint) hint
  have hic2 : countIntSpans c2 = 1 := by rw [b2, a1]
  have hdc2 : countDecSpans c2 = 1 := b1
  obtain ⟨ci, hci, hciInt⟩ : ∃ c ∈ c2, c.isIntSpan = true := by
    have hpos : 0 < List.countP (fun c => c.isIntSpan) c2 := by
      unfold countIntSpans at hic2
      omega
    obtain ⟨c, hc, hp⟩ := List.countP_pos_iff.mp hpos
    exact ⟨c, hc, by simpa using hp⟩
  have hciC3 : ci ∈ cleanupAfterSign c2 :=
    cleanup_mem_keep c2 ci hci
      (int_not_removable ci hciInt (a3' ci hci hciInt).2.2.1)
  obtain ⟨cd, hcd, hcdDec⟩ : ∃ c ∈ c2, c.isDecSpan = true := by
    have hpos : 0 < List.countP (fun c => c.isDecSpan) c2 := by
      unfold countDecSpans at hdc2
      omega
    obtain ⟨c, hc, hp⟩ := List.countP_pos_iff.mp hpos
    exact ⟨c, hc, by simpa using hp⟩
  have hcdC3 : cd ∈ cleanupAfterSign c2 :=
    cleanup_mem_keep c2 cd hcd (b3 cd hcd hcdDec).2.2.2.1
  have hintc3 : countIntSpans (cleanupAfterSign c2) = 1 := by
    have hle : countIntSpans (cleanupAfterSign c2) ≤ 1 := by
      rw [← hic2]
      exact cleanup_countP_le _ c2
    have hge : 0 < countIntSpans (cleanupAfterSign c2) := by
      unfold countIntSpans
      exact List.countP_pos_iff.mpr ⟨ci, hciC3, by simpa using hciInt⟩
    omega
  have hdecc3 : countDecSpans (cleanupAfterSign c2) = 1 := by
    have hle : countDecSpans (cleanupAfterSign c2) ≤ 1 := by
      rw [← hdc2]
      exact cleanup_countP_le _ c2
    have hge : 0 < countDecSpans (cleanupAfterSign c2) := by
      unfold countDecSpans
      exact List.countP_pos_iff.mpr ⟨cd, hcdC3, by simpa using hcdDec⟩
    omega
  have hd4 : dedupKeepFirst PriceChild.isIntSpan (cleanupAfterSign c2)
      = cleanupAfterSign c2 :=
    dedupKeepFirst_eq_self _ _ (le_of_eq hintc3)
  have hd5 : dedupKeepFirst PriceChild.isDecSpan (cleanupAfterSign c2)
      = cleanupAfterSign c2 :=
    dedupKeepFirst_eq_self _ _ (le_of_eq hdecc3)
  have hr : (updatePriceFields p iv dv).children = cleanupAfterSign c2 := by
    show dedupKeepFirst PriceChild.isDecSpan (dedupKeepFirst PriceChild.isIntSpan
      (cleanupAfterSign c2)) = cleanupAfterSign c2
    rw [hd4, hd5]
  have hcl : (updatePriceFields p iv dv).classes
      = classListAdd (classListRemove p.classes ["price--2digits", "price--3digits"])
          tB := rfl
  refine ⟨?_, ?_, ?_, ?_, ?_, ?_⟩
  · rw [hr]
    exact hintc3
  · rw [hr]
    exact hdecc3
  · intro c hc hint
    rw [hr] at hc
    exact a3' c (cleanup_mem c2 c hc) hint
  · intro c hc hdec
    rw [hr] at hc
    exact b3 c (cleanup_mem c2 c hc) hdec
  · rw [hr]
    exact cleanup_idem c2
  · rw [hcl]
    apply classListAdd_remove_fix
    rw [htBdef]
    by_cases hd : iv.length ≤ 2
    · rw [if_pos hd]
      decide
    · rw [if_neg hd]
      decide

/-- A well-formed composite price element: sign, one integer span, one
decimal span. -/
def priceElC2 : PriceEl :=
  { classes := ["price", "price--2digits"],
    children := [PriceChild.elemNode ["sign"] "Y",
      PriceChild.elemNode ["price-int-2"] "88",
      PriceChild.elemNode ["price-decimal-2"] ".8"] }

/-- C2, counterexample: on a well-formed price slot, binding the decimal
value `"..5"` (which itself starts with a separator) leaves the decimal
sub-element's text `"..5"`, beginning with two separator characters — the
update only prepends a separator when the value lacks one, it never strips
surplus leading separators. -/
theorem C2_counterexample :
    PriceSlotInv priceElC2 ∧
    ∃ c ∈ (updatePriceFields priceElC2 "12" "..5").children,
      c.isDecSpan = true ∧ c.textContent = "..5" ∧
      strStartsWith c.textContent ".." = true := by
  constructor
  · decide
  · decide

/-- C2, amended: on a price slot with at most one integer and one decimal
sub-element, none doubling as both or carrying the legacy `decimal` class,
`updatePriceFields` leaves exactly one integer and one decimal sub-element;
their classes are the 2-digit variants when the integer value has at most 2
characters and the 3-digit variants otherwise; the integer text is the
integer value, and the decimal text is the decimal value itself when it
already starts with a separator (even a doubled one) and `"." ++ value`
otherwise. -/
theorem C2_amended (p : PriceEl) (iv dv : String) (hinv : PriceSlotInv p) :
    countIntSpans (updatePriceFields p iv dv).children = 1 ∧
    countDecSpans (updatePriceFields p iv dv).children = 1 ∧
    (∀ c ∈ (updatePriceFields p iv dv).children, c.isIntSpan = true →
      c.textContent = iv ∧
      c.hasClass (if iv.length ≤ 2 then "price-int-2" else "price-int-3") = true) ∧
    (∀ c ∈ (updatePriceFields p iv dv).children, c.isDecSpan = true →
      c.textContent = (if strStartsWith dv "." then dv else "." ++ dv) ∧
      c.hasClass (if iv.length ≤ 2 then "price-decimal-2" else "price-decimal-3")
        = true) := by
  obtain ⟨k1, k2, k3, k4, _, _⟩ := updatePriceFields_spec p iv dv hinv
  exact ⟨k1, k2,
    fun c hc h => ⟨(k3 c hc h).1, (k3 c hc h).2.1⟩,
    fun c hc h => ⟨(k4 c hc h).1, (k4 c hc h).2.1⟩⟩

/-- C2, witness: the amended theorem at a concrete well-formed price slot
with a 3-character integer value. -/
theorem C2_witness :
    PriceSlotInv priceElC2 ∧
    (countIntSpans (updatePriceFields priceElC2 "123" "45").children = 1 ∧
     countDecSpans (updatePriceFields priceElC2 "123" "45").children = 1 ∧
     (∀ c ∈ (updatePriceFields priceElC2 "123" "45").children, c.isIntSpan = true →
       c.textContent = "123" ∧
       c.hasClass (if ("123" : String).length ≤ 2 then "price-int-2" else "price-int-3")
         = true) ∧
     (∀ c ∈ (updatePriceFields priceElC2 "123" "45").children, c.isDecSpan = true →
       c.textContent = (if strStartsWith "45" "." then "45" else "." ++ "45") ∧
       c.hasClass
         (if ("123" : String).length ≤ 2 then "price-decimal-2" else "price-decimal-3")
         = true)) :=
  ⟨by decide, C2_amended priceElC2 "123" "45" (by decide)⟩

/-! ## Claim C8: idempotence of the record binding -/

theorem setAt_getD_self (d : PriceChild) :
    ∀ (l : List PriceChild) (i : Nat), i < l.length →
      setAt l i (l.getD i d) = l := by
  intro l
  induction l with
  | nil => intro i h; simp at h
  | cons a t ih =>
    intro i h
    cases i with
    | zero => rfl
    | succ j =>
      simp only [List.getD_cons_succ, setAt, List.cons.injEq, true_and]
      exact ih j (by simpa using h)

/-- A second identical run of `updatePriceFields` is a no-op: on the
well-formed result of the first run the find-or-create steps find the two
spans, the class switch and text write reproduce them, and the cleanup and
dedup passes are identities. -/
theorem updatePriceFields_idem (p : PriceEl) (iv dv : String)
    (hinv : PriceSlotInv p) :
    updatePriceFields (updatePriceFields p iv dv) iv dv
      = updatePriceFields p iv dv := by
  obtain ⟨k1, k2, k3, k4, k5, k6⟩ := updatePriceFields_spec p iv dv hinv
  set r := updatePriceFields p iv dv with hrdef
  set tI := (if iv.length ≤ 2 then "price-int-2" else "price-int-3") with htIdef
  set tD := (if iv.length ≤ 2 then "price-decimal-2" else "price-decimal-3")
    with htDdef
  set tB := (if iv.length ≤ 2 then "price--2digits" else "price--3digits")
    with htBdef
  set fdv := (if strStartsWith dv "." then dv else "." ++ dv) with hfdvdef
  cases hf : (findIdxClass r.children "price-int-2").orElse
      (fun _ => findIdxClass r.children "price-int-3") with
  | none =>
    exfalso
    obtain ⟨h2, h3⟩ := orElse_none _ _ hf
    have hpos : 0 < List.countP (fun c => c.isIntSpan) r.children := by
      unfold countIntSpans at k1
      omega
    obtain ⟨c, hc, hp⟩ := List.countP_pos_iff.mp hpos
    have hp' : c.isIntSpan = true := by simpa using hp
    have ha2 := findIdxClass_none _ _ h2 c hc
    have ha3 := findIdxClass_none _ _ h3 c hc
    have hfalse : c.isIntSpan = false := by simp [PriceChild.isIntSpan, ha2, ha3]
    rw [hfalse] at hp'
    exact absurd hp' (by simp)
  | some i =>
    have hstep1 : updateIntSpan r.children tI iv
        = (setAt r.children i (((r.children.getD i (.textNode "")).switchClass
            ["price-int-2", "price-int-3"] tI).withText iv), i) := by
      simp only [updateIntSpan, hf]
    have hold : i < r.children.length
        ∧ (r.children.getD i (.textNode "")).isIntSpan = true := by
      rcases orElse_cases _ _ _ hf with h2 | ⟨_, h3⟩
      · obtain ⟨ha, hb⟩ := findIdxClass_some _ _ _ h2
        exact ⟨ha, by unfold PriceChild.isIntSpan; rw [hb, Bool.true_or]⟩
      · obtain ⟨ha, hb⟩ := findIdxClass_some _ _ _ h3
        exact ⟨ha, by unfold PriceChild.isIntSpan; rw [hb, Bool.or_true]⟩
    have hfix := (k3 _ (getD_mem _ r.children i hold.1) hold.2).2.2.2.2
    have hstep1' : updateIntSpan r.children tI iv = (r.children, i) := by
      rw [hstep1, hfix, setAt_getD_self (.textNode "") r.children i hold.1]
    have hs1a : (updateIntSpan r.children tI iv).1 = r.children := by rw [hstep1']
    have hs1b : (updateIntSpan r.children tI iv).2 = i := by rw [hstep1']
    cases hg : (findIdxClass r.children "price-decimal-2").orElse
        (fun _ => findIdxClass r.children "price-decimal-3") with
    | none =>
      exfalso
      obtain ⟨h2, h3⟩ := orElse_none _ _ hg
      have hpos : 0 < List.countP (fun c => c.isDecSpan) r.children := by
        unfold countDecSpans at k2
        omega
      obtain ⟨c, hc, hp⟩ := List.countP_pos_iff.mp hpos
      have hp' : c.isDecSpan = true := by simpa using hp
      have ha2 := findIdxClass_none _ _ h2 c hc
      have ha3 := findIdxClass_none _ _ h3 c hc
      have hfalse : c.isDecSpan = false := by simp [PriceChild.isDecSpan, ha2, ha3]
      rw [hfalse] at hp'
      exact absurd hp' (by simp)
    | some j =>
      have hstep2 : updateDecSpan r.children i tD fdv
          = setAt r.children j (((r.children.getD j (.textNode "")).switchClass
              ["price-decimal-2", "price-decimal-3"] tD).withText fdv) := by
        simp only [updateDecSpan, hg]
      have holdd : j < r.children.length
          ∧ (r.children.getD j (.textNode "")).isDecSpan = true := by
        rcases orElse_cases _ _ _ hg with h2 | ⟨_, h3⟩
        · obtain ⟨ha, hb⟩ := findIdxClass_some _ _ _ h2
          exact ⟨ha, by unfold PriceChild.isDecSpan; rw [hb, Bool.true_or]⟩
        · obtain ⟨ha, hb⟩ := findIdxClass_some _ _ _ h3
          exact ⟨ha, by unfold PriceChild.isDecSpan; rw [hb, Bool.or_true]⟩
      have hfixd := (k4 _ (getD_mem _ r.children j holdd.1) holdd.2).2.2.2.2
      have hstep2' : updateDecSpan r.children i tD fdv = r.children := by
        rw [hstep2, hfixd, setAt_getD_self (.textNode "") r.children j holdd.1]
      have hch : (updatePriceFields r iv dv).children = r.children := by
        show dedupKeepFirst PriceChild.isDecSpan (dedupKeepFirst PriceChild.isIntSpan
          (cleanupAfterSign (updateDecSpan (updateIntSpan r.children tI iv).1
            (updateIntSpan r.children tI iv).2 tD fdv))) = r.children
        rw [hs1a, hs1b, hstep2', k5,
          dedupKeepFirst_eq_self _ _ (le_of_eq k1),
          dedupKeepFirst_eq_self _ _ (le_of_eq k2)]
      have hcls : (updatePriceFields r iv dv).classes = r.classes := by
        show classListAdd (classListRemove r.classes
          ["price--2digits", "price--3digits"]) tB = r.classes
        exact k6
      cases hR : updatePriceFields r iv dv with
      | mk cls ch =>
        rw [hR] at hch hcls
        simp only at hch hcls
        rw [hch, hcls]

/-- Pointwise-fixed `mapIdx` is the identity. -/
theorem mapIdx_eq_self {α : Type} (dflt : α) :
    ∀ (l : List α) (f : Nat → α → α),
      (∀ i, i < l.length → f i (l.getD i dflt) = l.getD i dflt) →
      l.mapIdx f = l := by
  intro l
  induction l with
  | nil => intro f _; rfl
  | cons a t ih =>
    intro f h
    rw [List.mapIdx_cons]
    have h0 : f 0 a = a := by
      have := h 0 (by simp)
      simpa using this
    have ht : t.mapIdx (fun i x => f (i + 1) x) = t := by
      apply ih
      intro i hi
      have := h (i + 1) (by simpa using Nat.succ_lt_succ hi)
      simpa using this
    rw [h0, ht]

/-- Growing to a length the list already reaches is a no-op. -/
theorem growTo_of_le (l : List Img) (n : Nat) (hle : n ≤ l.length) :
    growTo l n = l := by
  cases hl : l.getLast? with
  | none => simp only [growTo, hl]
  | some last =>
    simp only [growTo, hl]
    rw [show n - l.length = 0 from by omega, List.replicate_zero, List.append_nil]

theorem getD_map_of_lt {α β : Type} (f : α → β) :
    ∀ (l : List α) (i : Nat) (d : α), i < l.length →
      (l.map f).getD i (f d) = f (l.getD i d) := by
  intro l
  induction l with
  | nil => intro i d h; simp at h
  | cons a t ih =>
    intro i d h
    cases i with
    | zero => simp
    | succ j =>
      simp only [List.map_cons, List.getD_cons_succ]
      exact ih j d (by simpa using h)

/-- The per-slot write of the main-product bind is idempotent. -/
theorem bindWrite_idem (s : List String) (i : Nat) (x : Img) :
    (if i < s.length then
      { (if i < s.length then { x with src := s.getD i "", display := "" }
         else { x with display := "none" }) with src := s.getD i "", display := "" }
     else
      { (if i < s.length then { x with src := s.getD i "", display := "" }
         else { x with display := "none" }) with display := "none" })
    = if i < s.length then { x with src := s.getD i "", display := "" }
      else { x with display := "none" } := by
  by_cases h : i < s.length
  · simp only [if_pos h]
  · simp only [if_neg h]

/-- Rebinding the main-product group with the same source list is a no-op:
the first bind leaves at least as many imgs as sources, so the grow step
does nothing and every per-slot write repeats itself. -/
theorem bindProductImgs_idem (c : List Img) (s : List String) :
    bindProductImgs (bindProductImgs c s) s = bindProductImgs c s := by
  by_cases hc : c.isEmpty = true
  · have hceq : c = [] := by
      cases c
      · rfl
      · simp at hc
    subst hceq
    cases s with
    | nil => rfl
    | cons a s' =>
      have hinner : bindProductImgs [] (a :: s') = (a :: s').map freshProductImg := rfl
      rw [hinner]
      have hempty2 : ((a :: s').map freshProductImg).isEmpty = false := by
        rw [List.map_cons]
        rfl
      rw [bindProductImgs, if_neg (by rw [hempty2]; exact Bool.false_ne_true)]
      have hlen2 : (a :: s').length ≤ ((a :: s').map freshProductImg).length := by
        rw [List.length_map]
      rw [growTo_of_le _ _ hlen2]
      apply mapIdx_eq_self (freshProductImg "")
      intro i hi
      have hi' : i < (a :: s').length := by
        rw [List.length_map] at hi
        exact hi
      rw [getD_map_of_lt freshProductImg (a :: s') i "" hi']
      show (if i < (a :: s').length then
          { freshProductImg ((a :: s').getD i "") with
              src := (a :: s').getD i "", display := "" }
        else { freshProductImg ((a :: s').getD i "") with display := "none" })
        = freshProductImg ((a :: s').getD i "")
      rw [if_pos hi']
      rfl
  · have hcne : c ≠ [] := by
      cases c
      · simp at hc
      · simp
    have hb : bindProductImgs c s
        = (growTo c s.length).mapIdx (fun i img =>
            if i < s.length then { img with src := s.getD i "", display := "" }
            else { img with display := "none" }) := by
      rw [bindProductImgs, if_neg hc]
    have hblen : (bindProductImgs c s).length = max c.length s.length := by
      rw [hb, List.length_mapIdx]
      exact growTo_length c s.length hcne
    have hbne : bindProductImgs c s ≠ [] := by
      have hpos : 0 < (bindProductImgs c s).length := by
        rw [hblen]
        have := List.length_pos.mpr hcne
        omega
      exact List.length_pos.mp hpos
    have hbempty : (bindProductImgs c s).isEmpty = false := by
      cases hbb : bindProductImgs c s
      · exact absurd hbb hbne
      · rfl
    rw [bindProductImgs, if_neg (by rw [hbempty]; exact Bool.false_ne_true)]
    have hle : s.length ≤ (bindProductImgs c s).length := by
      rw [hblen]
      exact le_max_right _ _
    rw [growTo_of_le _ _ hle]
    apply mapIdx_eq_self (freshProductImg "")
    intro i hi
    have hi2 : i < (growTo c s.length).length := by
      rw [growTo_length c s.length hcne]
      rw [hblen] at hi
      exact hi
    rw [hb, mapIdx_getD _ (growTo c s.length) i _ (freshProductImg "") hi2]
    exact bindWrite_idem s i _

/-- Array test on a JSON value. -/
def JsValue.isArr : JsValue → Bool
  | .vArr _ => true
  | _ => false

/-- The price step's effect on the price component alone. -/
def priceStepOf (data : BannerData) (edits : Edits) (po : Option PriceEl) :
    Option PriceEl :=
  match data.lookup "sec_price_int", data.lookup "sec_price_decimal" with
  | some di, some dd =>
    po.map (fun p => updatePriceFields p
      ((edits.lookup "sec_price_int").getD di.jsString)
      ((edits.lookup "sec_price_decimal").getD dd.jsString))
  | _, _ => po

/-- The product step's effect on the product component alone. -/
def productStepOf (data : BannerData) (edits : Edits) (po : Option (List Img)) :
    Option (List Img) :=
  if (data.lookup "product_main_src").isSome then
    match po with
    | some container => some (bindProductImgs container (productResolvedSrcs data edits))
    | none => none
  else po

/-- The gift step's effect on the gift component alone. -/
def giftStepOf (data : BannerData) (edits : Edits) (go : Option (List Img)) :
    Option (List Img) :=
  if (data.lookup "gift_products_src").isSome then
    match go with
    | some _ => some (bindGiftImgs (giftResolvedSrcs data edits))
    | none => none
  else if (data.lookup "gift_products_src_1").isSome then
    match go with
    | some _ => some (bindGiftImgs (giftSingleResolvedSrcs data edits))
    | none => none
  else go

/-- The named slot writes performed by the generic field loop. -/
def genericWrites : BannerData → Edits → List (String × String)
  | [], _ => []
  | kv :: rest, edits =>
    if specialFields.contains kv.1 then genericWrites rest edits
    else
      match kv.2 with
      | .vArr _ => genericWrites rest edits
      | v => (kv.1, (edits.lookup kv.1).getD v.jsString) :: genericWrites rest edits

/-- The named slot writes performed by the overlay-only loop. -/
def editsWrites (data : BannerData) : Edits → List (String × String)
  | [] => []
  | kv :: rest =>
    if (data.lookup kv.1).isSome then editsWrites data rest
    else if specialFields.contains kv.1 then editsWrites data rest
    else kv :: editsWrites data rest

/-- Run a list of named slot writes in order. -/
def applyWrites (slots : List Slot) (ws : List (String × String)) : List Slot :=
  ws.foldl (fun sl w => setSlotFirst sl w.1 w.2) slots

theorem doc_ext (a b : Doc) (h1 : a.price = b.price) (h2 : a.product = b.product)
    (h3 : a.gift = b.gift) (h4 : a.slots = b.slots) : a = b := by
  cases a with
  | mk ap apr ag asl =>
    cases b with
    | mk bp bpr bg bsl =>
      have e1 : ap = bp := h1
      have e2 : apr = bpr := h2
      have e3 : ag = bg := h3
      have e4 : asl = bsl := h4
      rw [e1, e2, e3, e4]

theorem applyWrites_cons (sl : List Slot) (k v : String)
    (ws : List (String × String)) :
    applyWrites sl ((k, v) :: ws) = applyWrites (setSlotFirst sl k v) ws := rfl

theorem applyWrites_names : ∀ (ws : List (String × String)) (sl : List Slot),
    (applyWrites sl ws).map (fun s => s.name) = sl.map (fun s => s.name) := by
  intro ws
  induction ws with
  | nil => intro sl; rfl
  | cons w ws ih =>
    intro sl
    obtain ⟨k, v⟩ := w
    rw [applyWrites_cons, ih, setSlotFirst_names]

theorem setSlotFirst_same : ∀ (sl : List Slot) (k v w : String),
    setSlotFirst (setSlotFirst sl k v) k w = setSlotFirst sl k w := by
  intro sl k v w
  induction sl with
  | nil => rfl
  | cons s rest ih =>
    by_cases h : s.name = k
    · simp [setSlotFirst, h]
    · simp [setSlotFirst, h, ih]

theorem setSlotFirst_comm : ∀ (sl : List Slot) (k k' v v' : String), k ≠ k' →
    setSlotFirst (setSlotFirst sl k v) k' v'
      = setSlotFirst (setSlotFirst sl k' v') k v := by
  intro sl k k' v v' hne
  induction sl with
  | nil => rfl
  | cons s rest ih =>
    by_cases h : s.name = k
    · have h2 : ¬(s.name = k') := by rw [h]; exact hne
      simp [setSlotFirst, h, h2, hne, Ne.symm hne]
    · by_cases h2 : s.name = k'
      · simp [setSlotFirst, h, h2, hne, Ne.symm hne]
      · simp [setSlotFirst, h, h2, ih]

theorem applyWrites_setSlot_comm : ∀ (ws : List (String × String)) (sl : List Slot)
    (k v : String), (∀ w ∈ ws, w.1 ≠ k) →
    applyWrites (setSlotFirst sl k v) ws = setSlotFirst (applyWrites sl ws) k v := by
  intro ws
  induction ws with
  | nil => intro sl k v _; rfl
  | cons w ws ih =>
    intro sl k v h
    obtain ⟨a, b⟩ := w
    have hak : k ≠ a := Ne.symm (h (a, b) (List.mem_cons_self _ _))
    rw [applyWrites_cons, applyWrites_cons,
      setSlotFirst_comm sl k a v b hak,
      ih (setSlotFirst sl a b) k v (fun u hu => h u (List.mem_cons.mpr (Or.inr hu)))]

/-- Replaying a duplicate-free write list is a no-op. -/
theorem applyWrites_idem : ∀ (ws : List (String × String)) (sl : List Slot),
    (ws.map Prod.fst).Nodup →
    applyWrites (applyWrites sl ws) ws = applyWrites sl ws := by
  intro ws
  induction ws with
  | nil => intro sl _; rfl
  | cons w ws ih =>
    intro sl hnd
    obtain ⟨k, v⟩ := w
    have hk : k ∉ ws.map Prod.fst := by simpa using (List.nodup_cons.mp hnd).1
    have hni : ∀ u ∈ ws, u.1 ≠ k := by
      intro u hu he
      exact hk (List.mem_map.mpr ⟨u, hu, he⟩)
    rw [applyWrites_cons, applyWrites_cons,
      ← applyWrites_setSlot_comm ws (setSlotFirst sl k v) k v hni,
      setSlotFirst_same]
    exact ih (setSlotFirst sl k v) (List.nodup_cons.mp hnd).2

theorem genericWrites_names_sublist (edits : Edits) :
    ∀ data : BannerData,
      ((genericWrites data edits).map Prod.fst).Sublist (data.map Prod.fst) := by
  intro data
  induction data with
  | nil => simp [genericWrites]
  | cons kv rest ih =>
    obtain ⟨k, v⟩ := kv
    by_cases hs : specialFields.contains k = true
    · simp only [genericWrites, if_pos hs, List.map_cons]
      exact ih.trans (List.sublist_cons_self _ _)
    · cases v with
      | vArr l =>
        simp only [genericWrites, if_neg hs, List.map_cons]
        exact ih.trans (List.sublist_cons_self _ _)
      | vStr s =>
        simp only [genericWrites, if_neg hs, List.map_cons]
        exact ih.cons₂ _
      | vNum n =>
        simp only [genericWrites, if_neg hs, List.map_cons]
        exact ih.cons₂ _

theorem editsWrites_names_sublist (data : BannerData) :
    ∀ edits : Edits,
      ((editsWrites data edits).map Prod.fst).Sublist (edits.map Prod.fst) := by
  intro edits
  induction edits with
  | nil => simp [editsWrites]
  | cons kv rest ih =>
    by_cases h1 : (data.lookup kv.1).isSome = true
    · simp only [editsWrites, if_pos h1, List.map_cons]
      exact ih.trans (List.sublist_cons_self _ _)
    · by_cases h2 : specialFields.contains kv.1 = true
      · simp only [editsWrites, if_neg h1, if_pos h2, List.map_cons]
        exact ih.trans (List.sublist_cons_self _ _)
      · simp only [editsWrites, if_neg h1, if_neg h2, List.map_cons]
        exact ih.cons₂ _

theorem editsWrites_lookup_none (data : BannerData) :
    ∀ (edits : Edits) (k : String), k ∈ (editsWrites data edits).map Prod.fst →
      data.lookup k = none := by
  intro edits
  induction edits with
  | nil => intro k h; simp [editsWrites] at h
  | cons kv rest ih =>
    intro k h
    by_cases h1 : (data.lookup kv.1).isSome = true
    · rw [editsWrites, if_pos h1] at h
      exact ih k h
    · by_cases h2 : specialFields.contains kv.1 = true
      · rw [editsWrites, if_neg h1, if_pos h2] at h
        exact ih k h
      · rw [editsWrites, if_neg h1, if_neg h2, List.map_cons] at h
        rcases List.mem_cons.mp h with h3 | h3
        · subst h3
          cases hl : data.lookup kv.1 with
          | none => rfl
          | some w => exact absurd (by rw [hl]; rfl) h1
        · exact ih k h3

/-- The price step only rewrites the price component. -/
theorem applyPriceStep_eq (doc : Doc) (data : BannerData) (edits : Edits) :
    applyPriceStep doc data edits
      = { doc with price := priceStepOf data edits doc.price } := by
  apply doc_ext
  · show (applyPriceStep doc data edits).price = priceStepOf data edits doc.price
    simp only [applyPriceStep, priceStepOf]
    cases h1 : data.lookup "sec_price_int" with
    | none => rfl
    | some di =>
      cases h2 : data.lookup "sec_price_decimal" with
      | none => rfl
      | some dd => rfl
  · show (applyPriceStep doc data edits).product = doc.product
    rw [applyPriceStep]
    split <;> rfl
  · show (applyPriceStep doc data edits).gift = doc.gift
    rw [applyPriceStep]
    split <;> rfl
  · exact applyPriceStep_slots doc data edits

/-- The product step only rewrites the product component. -/
theorem applyProductStep_eq (doc : Doc) (data : BannerData) (edits : Edits) :
    applyProductStep doc data edits
      = { doc with product := productStepOf data edits doc.product } := by
  apply doc_ext
  · show (applyProductStep doc data edits).price = doc.price
    rw [applyProductStep]
    split
    · split <;> rfl
    · rfl
  · show (applyProductStep doc data edits).product
      = productStepOf data edits doc.product
    simp only [applyProductStep, productStepOf]
    by_cases h : (data.lookup "product_main_src").isSome = true
    · rw [if_pos h, if_pos h]
      cases hp : doc.product with
      | none => exact hp
      | some c => rfl
    · rw [if_neg h, if_neg h]
  · show (applyProductStep doc data edits).gift = doc.gift
    rw [applyProductStep]
    split
    · split <;> rfl
    · rfl
  · exact applyProductStep_slots doc data edits

/-- The gift step only rewrites the gift component. -/
theorem applyGiftStep_eq (doc : Doc) (data : BannerData) (edits : Edits) :
    applyGiftStep doc data edits
      = { doc with gift := giftStepOf data edits doc.gift } := by
  apply doc_ext
  · show (applyGiftStep doc data edits).price = doc.price
    rw [applyGiftStep]
    split
    · split <;> rfl
    · split
      · split <;> rfl
      · rfl
  · show (applyGiftStep doc data edits).product = doc.product
    rw [applyGiftStep]
    split
    · split <;> rfl
    · split
      · split <;> rfl
      · rfl
  · show (applyGiftStep doc data edits).gift = giftStepOf data edits doc.gift
    simp only [applyGiftStep, giftStepOf]
    by_cases h1 : (data.lookup "gift_products_src").isSome = true
    · rw [if_pos h1, if_pos h1]
      cases hg : doc.gift with
      | none => exact hg
      | some c => rfl
    · rw [if_neg h1, if_neg h1]
      by_cases h2 : (data.lookup "gift_products_src_1").isSome = true
      · rw [if_pos h2, if_pos h2]
        cases hg : doc.gift with
        | none => exact hg
        | some c => rfl
      · rw [if_neg h2, if_neg h2]
  · exact applyGiftStep_slots doc data edits

/-- When every bound name has a standalone slot, the generic loop is a pure
slot-write sequence. -/
theorem applyGenericStep_eq (edits : Edits) :
    ∀ (data : BannerData) (d : Doc),
      (∀ kv ∈ data, specialFields.contains kv.1 = false → kv.2.isArr = false →
        d.slots.any (fun s => s.name = kv.1) = true) →
      applyGenericStep d data edits
        = { d with slots := applyWrites d.slots (genericWrites data edits) } := by
  intro data
  induction data with
  | nil => intro d _; rfl
  | cons kv rest ih =>
    intro d hcov
    obtain ⟨k, v⟩ := kv
    rw [applyGenericStep_cons]
    by_cases hs : specialFields.contains k = true
    · rw [if_pos hs]
      have hw : genericWrites ((k, v) :: rest) edits = genericWrites rest edits := by
        simp only [genericWrites]
        rw [if_pos hs]
      rw [hw]
      exact ih d (fun u hu a b => hcov u (List.mem_cons.mpr (Or.inr hu)) a b)
    · have hs' : specialFields.contains k = false := by
        cases hb : specialFields.contains k
        · rfl
        · exact absurd hb hs
      rw [if_neg hs]
      cases v with
      | vArr l =>
        have hw : genericWrites ((k, JsValue.vArr l) :: rest) edits
            = genericWrites rest edits := by
          simp only [genericWrites]
          rw [if_neg hs]
        rw [hw]
        exact ih d (fun u hu a b => hcov u (List.mem_cons.mpr (Or.inr hu)) a b)
      | vStr s =>
        have hany : d.slots.any (fun sl => sl.name = k) = true :=
          hcov (k, JsValue.vStr s) (List.mem_cons_self _ _) hs' rfl
        have hw : genericWrites ((k, JsValue.vStr s) :: rest) edits
            = (k, (edits.lookup k).getD (JsValue.vStr s).jsString)
                :: genericWrites rest edits := by
          simp only [genericWrites]
          rw [if_neg hs]
        dsimp only
        rw [hw, setFieldValue_of_any d k _ hany, applyWrites_cons,
          ih _ (fun u hu a b => by
            show (setSlotFirst d.slots k
              ((edits.lookup k).getD (JsValue.vStr s).jsString)).any
              (fun sl => sl.name = u.1) = true
            rw [any_name_eq_of_names_eq _ d.slots u.1 (setSlotFirst_names d.slots k _)]
            exact hcov u (List.mem_cons.mpr (Or.inr hu)) a b)]
      | vNum n =>
        have hany : d.slots.any (fun sl => sl.name = k) = true :=
          hcov (k, JsValue.vNum n) (List.mem_cons_self _ _) hs' rfl
        have hw : genericWrites ((k, JsValue.vNum n) :: rest) edits
            = (k, (edits.lookup k).getD (JsValue.vNum n).jsString)
                :: genericWrites rest edits := by
          simp only [genericWrites]
          rw [if_neg hs]
        dsimp only
        rw [hw, setFieldValue_of_any d k _ hany, applyWrites_cons,
          ih _ (fun u hu a b => by
            show (setSlotFirst d.slots k
              ((edits.lookup k).getD (JsValue.vNum n).jsString)).any
              (fun sl => sl.name = u.1) = true
            rw [any_name_eq_of_names_eq _ d.slots u.1 (setSlotFirst_names d.slots k _)]
            exact hcov u (List.mem_cons.mpr (Or.inr hu)) a b)]

/-- When every bound name has a standalone slot, the overlay-only loop is a
pure slot-write sequence. -/
theorem applyEditsStep_eq (data : BannerData) :
    ∀ (edits : Edits) (d : Doc),
      (∀ kv ∈ edits, data.lookup kv.1 = none →
        specialFields.contains kv.1 = false →
        d.slots.any (fun s => s.name = kv.1) = true) →
      applyEditsStep d data edits
        = { d with slots := applyWrites d.slots (editsWrites data edits) } := by
  intro edits
  induction edits with
  | nil => intro d _; rfl
  | cons kv rest ih =>
    intro d hcov
    obtain ⟨k, w⟩ := kv
    rw [applyEditsStep_cons]
    by_cases h1 : (data.lookup k).isSome = true
    · rw [if_pos h1]
      have hw : editsWrites data ((k, w) :: rest) = editsWrites data rest := by
        simp only [editsWrites]
        rw [if_pos h1]
      rw [hw]
      exact ih d (fun u hu a b => hcov u (List.mem_cons.mpr (Or.inr hu)) a b)
    · have hnone : data.lookup k = none := by
        cases hl : data.lookup k with
        | none => rfl
        | some q => exact absurd (by rw [hl]; rfl) h1
      rw [if_neg h1]
      by_cases h2 : specialFields.contains k = true
      · rw [if_pos h2]
        have hw : editsWrites data ((k, w) :: rest) = editsWrites data rest := by
          simp only [editsWrites]
          rw [if_neg h1, if_pos h2]
        rw [hw]
        exact ih d (fun u hu a b => hcov u (List.mem_cons.mpr (Or.inr hu)) a b)
      · have h2' : specialFields.contains k = false := by
          cases hb : specialFields.contains k
          · rfl
          · exact absurd hb h2
        rw [if_neg h2]
        have hany := hcov (k, w) (List.mem_cons_self _ _) hnone h2'
        have hw : editsWrites data ((k, w) :: rest)
            = (k, w) :: editsWrites data rest := by
          simp only [editsWrites]
          rw [if_neg h1, if_neg h2]
        rw [hw, setFieldValue_of_any d k w hany, applyWrites_cons,
          ih _ (fun u hu a b => by
            show (setSlotFirst d.slots k w).any (fun sl => sl.name = u.1) = true
            rw [any_name_eq_of_names_eq _ d.slots u.1 (setSlotFirst_names d.slots k w)]
            exact hcov u (List.mem_cons.mpr (Or.inr hu)) a b)]

theorem priceStepOf_idem (data : BannerData) (edits : Edits) (po : Option PriceEl)
    (hp : ∀ p, po = some p → PriceSlotInv p) :
    priceStepOf data edits (priceStepOf data edits po)
      = priceStepOf data edits po := by
  cases h1 : data.lookup "sec_price_int" with
  | none => simp [priceStepOf, h1]
  | some di =>
    cases h2 : data.lookup "sec_price_decimal" with
    | none => simp [priceStepOf, h1, h2]
    | some dd =>
      simp only [priceStepOf, h1, h2]
      cases po with
      | none => rfl
      | some p => exact congrArg some (updatePriceFields_idem p _ _ (hp p rfl))

theorem productStepOf_idem (data : BannerData) (edits : Edits)
    (po : Option (List Img)) :
    productStepOf data edits (productStepOf data edits po)
      = productStepOf data edits po := by
  by_cases h : (data.lookup "product_main_src").isSome = true
  · simp only [productStepOf, if_pos h]
    cases po with
    | none => rfl
    | some c => exact congrArg some (bindProductImgs_idem c _)
  · simp only [productStepOf, if_neg h]

theorem giftStepOf_idem (data : BannerData) (edits : Edits)
    (go : Option (List Img)) :
    giftStepOf data edits (giftStepOf data edits go) = giftStepOf data edits go := by
  by_cases h1 : (data.lookup "gift_products_src").isSome = true
  · simp only [giftStepOf, if_pos h1]
    cases go with
    | none => rfl
    | some c => rfl
  · by_cases h2 : (data.lookup "gift_products_src_1").isSome = true
    · simp only [giftStepOf, if_neg h1, if_pos h2]
      cases go with
      | none => rfl
      | some c => rfl
    · simp only [giftStepOf, if_neg h1, if_neg h2]

/-- Componentwise form of the whole binding when every generically bound
name has a standalone slot. -/
theorem applyJsonData_decomp (doc : Doc) (data : BannerData) (edits : Edits)
    (hcovD : ∀ kv ∈ data, specialFields.contains kv.1 = false →
      kv.2.isArr = false → doc.slots.any (fun s => s.name = kv.1) = true)
    (hcovE : ∀ kv ∈ edits, data.lookup kv.1 = none →
      specialFields.contains kv.1 = false →
      doc.slots.any (fun s => s.name = kv.1) = true) :
    applyJsonData doc data edits
      = { price := priceStepOf data edits doc.price,
          product := productStepOf data edits doc.product,
          gift := giftStepOf data edits doc.gift,
          slots := applyWrites (applyWrites doc.slots (genericWrites data edits))
            (editsWrites data edits) } := by
  have e1 : applyPriceStep doc data edits
      = { price := priceStepOf data edits doc.price, product := doc.product,
          gift := doc.gift, slots := doc.slots } :=
    applyPriceStep_eq doc data edits
  have e2 : applyProductStep
      { price := priceStepOf data edits doc.price, product := doc.product,
        gift := doc.gift, slots := doc.slots } data edits
      = { price := priceStepOf data edits doc.price,
          product := productStepOf data edits doc.product,
          gift := doc.gift, slots := doc.slots } :=
    applyProductStep_eq _ data edits
  have e3 : applyGiftStep
      { price := priceStepOf data edits doc.price,
        product := productStepOf data edits doc.product,
        gift := doc.gift, slots := doc.slots } data edits
      = { price := priceStepOf data edits doc.price,
          product := productStepOf data edits doc.product,
          gift := giftStepOf data edits doc.gift, slots := doc.slots } :=
    applyGiftStep_eq _ data edits
  have e4 : applyGenericStep
      { price := priceStepOf data edits doc.price,
        product := productStepOf data edits doc.product,
        gift := giftStepOf data edits doc.gift, slots := doc.slots } data edits
      = { price := priceStepOf data edits doc.price,
          product := productStepOf data edits doc.product,
          gift := giftStepOf data edits doc.gift,
          slots := applyWrites doc.slots (genericWrites data edits) } :=
    applyGenericStep_eq edits data _ (fun u hu a b => hcovD u hu a b)
  have e5 : applyEditsStep
      { price := priceStepOf data edits doc.price,
        product := productStepOf data edits doc.product,
        gift := giftStepOf data edits doc.gift,
        slots := applyWrites doc.slots (genericWrites data edits) } data edits
      = { price := priceStepOf data edits doc.price,
          product := productStepOf data edits doc.product,
          gift := giftStepOf data edits doc.gift,
          slots := applyWrites (applyWrites doc.slots (genericWrites data edits))
            (editsWrites data edits) } :=
    applyEditsStep_eq data edits _ (fun u hu a b => by
      show (applyWrites doc.slots (genericWrites data edits)).any
        (fun sl => sl.name = u.1) = true
      rw [any_name_eq_of_names_eq _ doc.slots u.1
        (applyWrites_names (genericWrites data edits) doc.slots)]
      exact hcovE u hu a b)
  rw [applyJsonData, e1, e2, e3, e4, e5]

/-- A price element whose integer spans are stale: a 3-digit span precedes
the 2-digit span the selector will find. -/
def priceElC8 : PriceEl :=
  { classes := ["price"],
    children := [PriceChild.elemNode ["sign"] "Y",
      PriceChild.elemNode ["price-int-3"] "old",
      PriceChild.elemNode ["price-int-2"] "x"] }

/-- A render target holding only the price element above. -/
def docC8 : Doc :=
  { price := some priceElC8, product := none, gift := none, slots := [] }

/-- A record carrying just the two composite-price fields. -/
def dataC8 : BannerData :=
  [("sec_price_int", JsValue.vStr "12"), ("sec_price_decimal", JsValue.vStr "5")]

/-- C8, counterexample: binding the same record twice is not always the same
as binding it once. On a price slot holding a stale `price-int-3` span ahead
of a `price-int-2` span, the first bind writes the found `price-int-2` span
and then the surplus cleanup deletes it (keeping the stale first span), while
the second bind finds and rewrites the surviving stale span — the two
passes end in different documents. -/
theorem C8_counterexample :
    applyJsonData (applyJsonData docC8 dataC8 []) dataC8 []
      ≠ applyJsonData docC8 dataC8 [] := by decide

/-- C8, amended: the binding is idempotent on well-formed inputs: when the
price slot satisfies the one-int/one-dec invariant, the record's and
overlay's key lists are duplicate-free, and every name bound by the generic
and overlay-only loops has a standalone slot, binding the same record (and
overlay) twice equals binding it once. Without these conditions idempotence
can fail (see the stale-span counterexample). -/
theorem C8_amended (doc : Doc) (data : BannerData) (edits : Edits)
    (hp : ∀ p, doc.price = some p → PriceSlotInv p)
    (hD : (data.map Prod.fst).Nodup)
    (hE : (edits.map Prod.fst).Nodup)
    (hcovD : ∀ kv ∈ data, specialFields.contains kv.1 = false →
      kv.2.isArr = false → doc.slots.any (fun s => s.name = kv.1) = true)
    (hcovE : ∀ kv ∈ edits, data.lookup kv.1 = none →
      specialFields.contains kv.1 = false →
      doc.slots.any (fun s => s.name = kv.1) = true) :
    applyJsonData (applyJsonData doc data edits) data edits
      = applyJsonData doc data edits := by
  have hdec1 := applyJsonData_decomp doc data edits hcovD hcovE
  have hnames : (applyJsonData doc data edits).slots.map (fun s => s.name)
      = doc.slots.map (fun s => s.name) := by
    rw [hdec1]
    show (applyWrites (applyWrites doc.slots (genericWrites data edits))
      (editsWrites data edits)).map (fun s => s.name) = _
    rw [applyWrites_names, applyWrites_names]
  have hcovD1 : ∀ kv ∈ data, specialFields.contains kv.1 = false →
      kv.2.isArr = false →
      (applyJsonData doc data edits).slots.any (fun s => s.name = kv.1) = true := by
    intro kv hkv a b
    rw [any_name_eq_of_names_eq _ doc.slots kv.1 hnames]
    exact hcovD kv hkv a b
  have hcovE1 : ∀ kv ∈ edits, data.lookup kv.1 = none →
      specialFields.contains kv.1 = false →
      (applyJsonData doc data edits).slots.any (fun s => s.name = kv.1) = true := by
    intro kv hkv a b
    rw [any_name_eq_of_names_eq _ doc.slots kv.1 hnames]
    exact hcovE kv hkv a b
  have hdec2 := applyJsonData_decomp (applyJsonData doc data edits) data edits
    hcovD1 hcovE1
  rw [hdec2, hdec1]
  apply doc_ext
  · show priceStepOf data edits (priceStepOf data edits doc.price)
      = priceStepOf data edits doc.price
    exact priceStepOf_idem data edits doc.price hp
  · show productStepOf data edits (productStepOf data edits doc.product)
      = productStepOf data edits doc.product
    exact productStepOf_idem data edits doc.product
  · show giftStepOf data edits (giftStepOf data edits doc.gift)
      = giftStepOf data edits doc.gift
    exact giftStepOf_idem data edits doc.gift
  · show applyWrites (applyWrites (applyWrites (applyWrites doc.slots
        (genericWrites data edits)) (editsWrites data edits))
        (genericWrites data edits)) (editsWrites data edits)
      = applyWrites (applyWrites doc.slots (genericWrites data edits))
        (editsWrites data edits)
    have hsubG := genericWrites_names_sublist edits data
    have hsubE := editsWrites_names_sublist data edits
    have hGW : ((genericWrites data edits).map Prod.fst).Nodup := hD.sublist hsubG
    have hEW : ((editsWrites data edits).map Prod.fst).Nodup := hE.sublist hsubE
    have hdisj : List.Disjoint ((genericWrites data edits).map Prod.fst)
        ((editsWrites data edits).map Prod.fst) := by
      intro a haG haE
      have h1 : a ∈ data.map Prod.fst := hsubG.subset haG
      have h2 : data.lookup a = none := editsWrites_lookup_none data edits a haE
      exact notmem_of_lookup_none data a h2 h1
    have hnd : ((genericWrites data edits ++ editsWrites data edits).map
        Prod.fst).Nodup := by
      rw [List.map_append]
      exact List.nodup_append.mpr ⟨hGW, hEW, hdisj⟩
    have happ : ∀ sl : List Slot,
        applyWrites sl (genericWrites data edits ++ editsWrites data edits)
          = applyWrites (applyWrites sl (genericWrites data edits))
              (editsWrites data edits) := by
      intro sl
      rw [applyWrites, List.foldl_append]
      rfl
    rw [← happ, ← happ]
    exact applyWrites_idem _ _ hnd

/-- A well-formed price element for the idempotence witness. -/
def priceElC8W : PriceEl :=
  { classes := ["price", "price--2digits"],
    children := [PriceChild.elemNode ["sign"] "Y",
      PriceChild.elemNode ["price-int-2"] "8",
      PriceChild.elemNode ["price-decimal-2"] ".8"] }

/-- A render target with price, product container, gift container and two
standalone slots. -/
def docC8W : Doc :=
  { price := some priceElC8W, product := some [freshProductImg "p.png"],
    gift := some [],
    slots := [{ name := "title", value := "" }, { name := "subtitle", value := "" }] }

/-- A record binding a text field, the product group and the price. -/
def dataC8W : BannerData :=
  [("title", JsValue.vStr "Hello"), ("product_main_src", JsValue.vStr "a.png"),
    ("sec_price_int", JsValue.vStr "12"), ("sec_price_decimal", JsValue.vStr "5")]

/-- An overlay overriding `title` and adding `subtitle`. -/
def editsC8W : Edits := [("title", "Hi"), ("subtitle", "S")]

/-- C8, witness: the amended idempotence theorem at a concrete well-formed
render target and record. -/
theorem C8_witness :
    (dataC8W.map Prod.fst).Nodup ∧ (editsC8W.map Prod.fst).Nodup ∧
    applyJsonData (applyJsonData docC8W dataC8W editsC8W) dataC8W editsC8W
      = applyJsonData docC8W dataC8W editsC8W :=
  ⟨by decide, by decide,
    C8_amended docC8W dataC8W editsC8W
      (by
        intro p h
        have h2 : priceElC8W = p := Option.some.inj h
        rw [← h2]
        decide)
      (by decide) (by decide) (by decide) (by decide)⟩

end BannerGen
